import Mathlib

/-!
Verification development for the AutoMoney trading core.

Prices are embedded as rationals (`ℚ`), instants (the `datetime` values of
the source) as integers (`ℤ`).  Python `None` becomes `Option.none`, Python
lists become `List`, and each stateful loop of the source becomes a fold or
a structural recursion over the bar list with an explicit state record.
Every definition is translated from the repository source; the one
definition written from the specification text (for the batch/live
refinement comparison) is marked as such in its doc comment.
-/

set_option maxHeartbeats 1600000
set_option maxRecDepth 2000

/-! ## Indicator engine: `logic/indicators.py` -/

/-- Recurrence tail of `ema` (`logic/indicators.py` lines 27-31): starting
from `prev`, each output is `value * k + prev * (1 - k)`. -/
def emaRec (k : ℚ) : ℚ → List ℚ → List ℚ
  | _, [] => []
  | prev, v :: vs =>
    let nxt := v * k + prev * (1 - k)
    nxt :: emaRec k nxt vs

/-- `ema(values, period)` from `logic/indicators.py` lines 8-33: same-length
output, `None` before index `period - 1`, SMA seed at `period - 1`, then the
EMA recurrence with `k = 2/(period+1)`.  Degenerate inputs (`period <= 0`,
empty list, list shorter than `period`) give an all-`None` list. -/
def ema (values : List ℚ) (period : ℤ) : List (Option ℚ) :=
  if values = [] ∨ period ≤ 0 then List.replicate values.length none
  else if (values.length : ℤ) < period then List.replicate values.length none
  else
    let p := period.toNat
    let sma := (values.take p).sum / (p : ℚ)
    let k : ℚ := 2 / ((period : ℚ) + 1)
    List.replicate (p - 1) none ++ some sma :: (emaRec k sma (values.drop p)).map some

/-! ## Data model: `data/kline.py` -/

/-- `Kline` from `data/kline.py` (the fields the decision core reads;
`trades`, the taker volumes and `raw` are debug metadata never used by the
logic under verification).  Lean reserves `open`, so that field is
`open_`. -/
structure Kline where
  symbol : String
  interval : String
  open_time : ℤ
  close_time : ℤ
  open_ : ℚ
  high : ℚ
  low : ℚ
  close : ℚ
  volume : ℚ
  deriving DecidableEq, Repr

/-- Shorthand used by the concrete test inputs in this file. -/
def mkBar (t : ℤ) (o h l c : ℚ) : Kline :=
  { symbol := "BTCUSDT", interval := "5m", open_time := t, close_time := t,
    open_ := o, high := h, low := l, close := c, volume := 0 }

/-! ## `atr` from `logic/indicators.py` and `atr_list` from
`logic/backtest_ema_pullback_v3.py` -/

/-- True ranges of the bars after the first one
(`logic/indicators.py` lines 57-63): each needs the previous close. -/
def trueRangesFrom : Kline → List Kline → List ℚ
  | _, [] => []
  | prev, c :: rest =>
      max (c.high - c.low) (max |c.high - prev.close| |c.low - prev.close|)
        :: trueRangesFrom c rest

/-- The `trs` array of `atr` (`logic/indicators.py` lines 50-63): the first
bar's true range is plain `high - low`, later bars use the previous close. -/
def trueRanges : List Kline → List ℚ
  | [] => []
  | c :: rest => (c.high - c.low) :: trueRangesFrom c rest

/-- Wilder smoothing loop shared by `atr` (`logic/indicators.py` lines
73-78) and `atr_list` (`logic/backtest_ema_pullback_v3.py` lines 258-262):
`curr = (prev * (period - 1) + tr) / period`. -/
def atrRec (period : ℤ) : ℚ → List ℚ → List ℚ
  | _, [] => []
  | prev, tr :: trs =>
      let curr := (prev * ((period : ℚ) - 1) + tr) / (period : ℚ)
      curr :: atrRec period curr trs

/-- `atr(candles, period)` from `logic/indicators.py` lines 36-80.  The seed
(simple average of the first `period` true ranges, the first of which is
`high - low` of bar 0) is placed at index `period - 1`. -/
def atr (candles : List Kline) (period : ℤ) : List (Option ℚ) :=
  if candles.length = 0 ∨ period ≤ 0 then List.replicate candles.length none
  else
    let trs := trueRanges candles
    if (candles.length : ℤ) < period then List.replicate candles.length none
    else
      let p := period.toNat
      let first_atr := (trs.take p).sum / (p : ℚ)
      List.replicate (p - 1) none
        ++ some first_atr :: (atrRec period first_atr (trs.drop p)).map some

/-- `Candle` from `logic/backtest_ema_pullback_v3.py`. -/
structure Candle where
  index : ℕ
  open_time : ℤ
  close_time : ℤ
  open_ : ℚ
  high : ℚ
  low : ℚ
  close : ℚ
  volume : ℚ
  deriving DecidableEq, Repr

/-- `true_range(c_prev, c)` from `logic/backtest_ema_pullback_v3.py` lines
233-238. -/
def true_range (c_prev c : Candle) : ℚ :=
  max (c.high - c.low) (max |c.high - c_prev.close| |c.low - c_prev.close|)

/-- The `trs` list of `atr_list` (`logic/backtest_ema_pullback_v3.py` lines
248-250): true ranges of consecutive bar pairs, one entry per bar after the
first. -/
def pairTrueRanges : List Candle → List ℚ
  | [] => []
  | [_] => []
  | a :: b :: rest => true_range a b :: pairTrueRanges (b :: rest)

/-- `atr_list(candles, length)` from `logic/backtest_ema_pullback_v3.py`
lines 241-264.  Needs at least `length + 1` bars; the seed (average of the
first `length` pair true ranges) is placed at index `length`. -/
def atr_list (candles : List Candle) (length : ℤ) : List (Option ℚ) :=
  if candles.length = 0 ∨ length ≤ 0 then List.replicate candles.length none
  else if (candles.length : ℤ) < length + 1 then List.replicate candles.length none
  else
    let l := length.toNat
    let trs := pairTrueRanges candles
    let first_atr := (trs.take l).sum / (l : ℚ)
    List.replicate l none
      ++ some first_atr :: (atrRec length first_atr (trs.drop l)).map some

/-! ## `logic/models.py` and the V4 Pro simulator
(`logic/strategies/ema_pullback_v4_pro.py`) -/

/-- `Side` from `logic/models.py`. -/
inductive Side
  | LONG
  | SHORT
  deriving DecidableEq, Repr

/-- `SimpleKline` from `logic/models.py`. -/
structure SimpleKline where
  open_time : ℤ
  close_time : ℤ
  open_ : ℚ
  high : ℚ
  low : ℚ
  close : ℚ
  deriving DecidableEq, Repr

/-- `TradeResult` from `logic/models.py`. -/
structure TradeResultV4 where
  index : ℕ
  side : Side
  entry_time : ℤ
  exit_time : ℤ
  entry : ℚ
  sl : ℚ
  tp : ℚ
  exit_price : ℚ
  result_r : ℚ
  atr : ℚ
  deriving DecidableEq, Repr

/-- `EmaPullbackParams` from `logic/strategies/ema_pullback_v4_pro.py`. -/
structure EmaPullbackParamsV4 where
  ema_fast : ℤ := 18
  ema_slow : ℤ := 200
  atr_period : ℤ := 10
  r_multiple : ℚ := 22 / 10
  min_trend_strength : ℚ := 0
  max_pullback_ratio : ℚ := 1 / 2
  deriving DecidableEq, Repr

/-- The scan loop of `simulate_trade_v4_pro`
(`logic/strategies/ema_pullback_v4_pro.py` lines 89-125): first bar that
touches a boundary decides the exit; the SL check comes first.  Returns
`(exit close_time, exit price, result R)`. -/
def simLoopV4 (params : EmaPullbackParamsV4) (side : Side) (sl tp : ℚ) :
    List SimpleKline → Option (ℤ × ℚ × ℚ)
  | [] => none
  | c :: rest =>
    let hit_sl : Prop := if side = Side.LONG then c.low ≤ sl else sl ≤ c.high
    let hit_tp : Prop := if side = Side.LONG then tp ≤ c.high else c.low ≤ tp
    if hit_sl then some (c.close_time, sl, -1)
    else if hit_tp then some (c.close_time, tp, params.r_multiple)
    else simLoopV4 params side sl tp rest

/-- `simulate_trade_v4_pro` from `logic/strategies/ema_pullback_v4_pro.py`
lines 76-140.  `none` models the `IndexError` the Python code would raise
when `candles[i]` or `candles[-1]` is out of range. -/
def simulate_trade_v4_pro (i : ℕ) (side : Side) (sl tp : ℚ) (candles : List SimpleKline)
    (params : EmaPullbackParamsV4) (atr_value : ℚ) : Option TradeResultV4 :=
  match candles[i]?, candles.getLast? with
  | some entry_candle, some last_c =>
    let entry := entry_candle.close
    let entry_time := entry_candle.close_time
    some (match simLoopV4 params side sl tp (candles.drop (i + 1)) with
      | some (texit, px, r) =>
        { index := i, side := side, entry_time := entry_time, exit_time := texit,
          entry := entry, sl := sl, tp := tp, exit_price := px, result_r := r,
          atr := atr_value }
      | none =>
        { index := i, side := side, entry_time := entry_time,
          exit_time := last_c.close_time, entry := entry, sl := sl, tp := tp,
          exit_price := last_c.close, result_r := 0, atr := atr_value })
  | _, _ => none

/-! ## The V2.5 exit simulator (`logic/backtest_ema_pullback_v2_5.py`) -/

/-- `EntrySignal` from `logic/backtest_ema_pullback_v2_5.py`. -/
structure EntrySignalV25 where
  index : ℕ
  side : String
  entry_price : ℚ
  sl : ℚ
  tp : ℚ
  atr_value : ℚ
  deriving DecidableEq, Repr

/-- `TradeResult` from `logic/backtest_ema_pullback_v2_5.py`. -/
structure TradeResultV25 where
  signal : EntrySignalV25
  exit_index : ℕ
  exit_price : ℚ
  result : String
  result_r : ℚ
  entry_time_utc : ℤ
  exit_time_utc : ℤ
  deriving DecidableEq, Repr

/-- `EmaPullbackParamsV2_5` from `logic/backtest_ema_pullback_v2_5.py` (the
fields its exit simulator reads; the session window and the V2.5 entry
filters are only read by the entry detector, which is not needed here). -/
structure EmaPullbackParamsV25 where
  ema_fast_period : ℤ := 21
  ema_slow_period : ℤ := 200
  atr_period : ℤ := 14
  r_multiple : ℚ := 2
  deriving DecidableEq, Repr

/-- The `for` scan of `simulate_trade_exit`
(`logic/backtest_ema_pullback_v2_5.py` lines 221-248): first touching bar
wins, SL checked before TP.  Returns `(exit index, exit price, result,
result R)`, or `none` when the loop runs out (the Python `for`-`else`). -/
def v25Scan (side : String) (sl tp rmult : ℚ) : ℕ → List Kline → Option (ℕ × ℚ × String × ℚ)
  | _, [] => none
  | j, c :: rest =>
    if side = "LONG" then
      if c.low ≤ sl then some (j, sl, "LOSS", -1)
      else if tp ≤ c.high then some (j, tp, "WIN", rmult)
      else v25Scan side sl tp rmult (j + 1) rest
    else
      if sl ≤ c.high then some (j, sl, "LOSS", -1)
      else if c.low ≤ tp then some (j, tp, "WIN", rmult)
      else v25Scan side sl tp rmult (j + 1) rest

/-- `simulate_trade_exit` from `logic/backtest_ema_pullback_v2_5.py` lines
204-263.  `none` models the `IndexError` on an empty bar list or an
out-of-range entry index. -/
def simulate_trade_exit (sig : EntrySignalV25) (candles : List Kline)
    (params : EmaPullbackParamsV25) : Option TradeResultV25 :=
  match candles.getLast? with
  | none => none
  | some last_c =>
    let entry_idx := sig.index
    let entry_price := sig.entry_price
    let risk0 := |entry_price - sig.sl|
    let risk := if risk0 = 0 then 1 / 1000000000 else risk0
    let outcome :=
      match v25Scan sig.side sig.sl sig.tp params.r_multiple (entry_idx + 1)
          (candles.drop (entry_idx + 1)) with
      | some r => r
      | none =>
        let exit_price := last_c.close
        let pnl := if sig.side = "LONG" then exit_price - entry_price
                   else entry_price - exit_price
        (candles.length - 1, exit_price,
          if 0 < pnl then "WIN" else if pnl < 0 then "LOSS" else "BE", pnl / risk)
    match candles[entry_idx]?, candles[outcome.1]? with
    | some ec, some xc =>
      some { signal := sig, exit_index := outcome.1, exit_price := outcome.2.1,
             result := outcome.2.2.1, result_r := outcome.2.2.2,
             entry_time_utc := ec.close_time, exit_time_utc := xc.close_time }
    | _, _ => none

/-! ## The V3 simulator (`logic/backtest_ema_pullback_v3.py`) -/

/-- `EntrySignal` from `logic/backtest_ema_pullback_v3.py` (fields the
simulator reads). -/
structure EntrySignalV3 where
  index : ℕ
  side : String
  ema_fast : ℚ
  ema_slow : ℚ
  atr : ℚ
  deriving DecidableEq, Repr

/-- `TradeResult` from `logic/backtest_ema_pullback_v3.py`. -/
structure TradeResultV3 where
  index : ℕ
  side : String
  entry_time : ℤ
  exit_time : ℤ
  entry_price : ℚ
  sl : ℚ
  tp : ℚ
  exit_price : ℚ
  result_r : ℚ
  atr : ℚ
  deriving DecidableEq, Repr

/-- The scan loop of `simulate_trade`
(`logic/backtest_ema_pullback_v3.py` lines 408-453): SL wins a double
touch.  Returns `(exit index, exit price, result R)`. -/
def v3Scan (side : String) (sl tp rr : ℚ) : ℕ → List Candle → Option (ℕ × ℚ × ℚ)
  | _, [] => none
  | j, cj :: rest =>
    if side = "LONG" then
      if cj.low ≤ sl ∧ tp ≤ cj.high then some (j, sl, -1)
      else if cj.low ≤ sl then some (j, sl, -1)
      else if tp ≤ cj.high then some (j, tp, rr)
      else v3Scan side sl tp rr (j + 1) rest
    else
      if sl ≤ cj.high ∧ cj.low ≤ tp then some (j, sl, -1)
      else if sl ≤ cj.high then some (j, sl, -1)
      else if cj.low ≤ tp then some (j, tp, rr)
      else v3Scan side sl tp rr (j + 1) rest

/-- `simulate_trade` from `logic/backtest_ema_pullback_v3.py` lines 385-456:
degenerate stops give `None`, and a trade that never touches SL/TP is
dropped (`return None`), not closed at the last bar. -/
def simulate_trade (sig : EntrySignalV3) (candles : List Candle) (atr rr : ℚ) :
    Option TradeResultV3 :=
  match candles[sig.index]? with
  | none => none
  | some c =>
    let entry := c.close
    if sig.side = "LONG" then
      let sl := min c.low (entry - 1 * atr)
      if entry ≤ sl then none
      else
        let tp := entry + rr * (entry - sl)
        match v3Scan sig.side sl tp rr (sig.index + 1) (candles.drop (sig.index + 1)) with
        | none => none
        | some (j, exit_price, result_r) =>
          match candles[j]? with
          | none => none
          | some cj =>
            some { index := sig.index, side := sig.side, entry_time := c.close_time,
                   exit_time := cj.close_time, entry_price := entry, sl := sl, tp := tp,
                   exit_price := exit_price, result_r := result_r, atr := atr }
    else
      let sl := max c.high (entry + 1 * atr)
      if sl ≤ entry then none
      else
        let tp := entry - rr * (sl - entry)
        match v3Scan sig.side sl tp rr (sig.index + 1) (candles.drop (sig.index + 1)) with
        | none => none
        | some (j, exit_price, result_r) =>
          match candles[j]? with
          | none => none
          | some cj =>
            some { index := sig.index, side := sig.side, entry_time := c.close_time,
                   exit_time := cj.close_time, entry_price := entry, sl := sl, tp := tp,
                   exit_price := exit_price, result_r := result_r, atr := atr }

/-! ## Range break/re-entry detector (`logic/entry_signals.py`) and its data
model (`data/break_event.py`, `data/entry_signal.py`, `data/range_4h_ny.py`) -/

/-- `Range4HNY` from `data/range_4h_ny.py`. -/
structure Range4HNY where
  symbol : String
  high : ℚ
  low : ℚ
  count : ℕ
  start_ny : ℤ
  end_ny : ℤ
  start_utc : ℤ
  end_utc : ℤ
  start_vn : ℤ
  end_vn : ℤ
  deriving DecidableEq, Repr

/-- `BreakEvent` from `data/break_event.py`. -/
structure BreakEvent where
  symbol : String
  level_type : String
  kind : String
  level : ℚ
  candle : Kline
  deriving DecidableEq, Repr

/-- `EntrySignal` from `data/entry_signal.py`. -/
structure EntrySignal where
  symbol : String
  side : String
  range_side : String
  exit_event : BreakEvent
  reentry_event : BreakEvent
  entry_time : ℤ
  entry_price : ℚ
  sl_price : ℚ
  tp_price : ℚ
  risk : ℚ
  rr : ℚ
  deriving DecidableEq, Repr

/-- `is_inside` from `detect_entry_signals` (`logic/entry_signals.py` lines
42-43). -/
def is_inside (range_4h : Range4HNY) (price : ℚ) : Prop :=
  range_4h.low ≤ price ∧ price ≤ range_4h.high

instance (range_4h : Range4HNY) (price : ℚ) : Decidable (is_inside range_4h price) :=
  inferInstanceAs (Decidable (_ ∧ _))

/-- The body-cross test `(o - level) * (cl - level) < 0` used throughout
`logic/entry_signals.py`. -/
def crossesLevel (o cl level : ℚ) : Prop := (o - level) * (cl - level) < 0

instance (o cl level : ℚ) : Decidable (crossesLevel o cl level) :=
  inferInstanceAs (Decidable (_ < _))

/-- The three values of the `state` string of `detect_entry_signals`. -/
inductive RState
  | INSIDE
  | OUTSIDE_ABOVE
  | OUTSIDE_BELOW
  deriving DecidableEq, Repr

/-- The mutable loop state of `detect_entry_signals` other than the signal
accumulator: `state`, `current_exit`, `exit_index`. -/
structure DetCore where
  state : RState
  current_exit : Option BreakEvent
  exit_index : Option ℕ
  deriving DecidableEq, Repr

def initCore : DetCore := { state := .INSIDE, current_exit := none, exit_index := none }

/-- `max(cc.high for cc in segment)` over the exit-to-reentry segment
(`logic/entry_signals.py` line 112).  The `[]` case is unreachable there:
the recorded exit index never exceeds the current index, so the Python
`max` never sees an empty sequence. -/
def maxHigh : List Kline → ℚ
  | [] => 0
  | c :: rest => rest.foldl (fun m x => max m x.high) c.high

/-- `min(cc.low for cc in segment)` (`logic/entry_signals.py` line 163). -/
def minLow : List Kline → ℚ
  | [] => 0
  | c :: rest => rest.foldl (fun m x => min m x.low) c.low

def exitUpEvent (range_4h : Range4HNY) (c : Kline) : BreakEvent :=
  { symbol := c.symbol, level_type := "HIGH", kind := "EXIT_UP",
    level := range_4h.high, candle := c }

def exitDownEvent (range_4h : Range4HNY) (c : Kline) : BreakEvent :=
  { symbol := c.symbol, level_type := "LOW", kind := "EXIT_DOWN",
    level := range_4h.low, candle := c }

def reentryAboveEvent (range_4h : Range4HNY) (c : Kline) : BreakEvent :=
  { symbol := c.symbol, level_type := "HIGH", kind := "REENTER_FROM_ABOVE",
    level := range_4h.high, candle := c }

def reentryBelowEvent (range_4h : Range4HNY) (c : Kline) : BreakEvent :=
  { symbol := c.symbol, level_type := "LOW", kind := "REENTER_FROM_BELOW",
    level := range_4h.low, candle := c }

/-- Section 3 of the loop body of `detect_entry_signals`
(`logic/entry_signals.py` lines 190-202): the plain state refresh when no
exit or re-entry event fires on this bar.  Note that going outside without
a body cross keeps `current_exit`/`exit_index` as they are. -/
def detectFall (range_4h : Range4HNY) (c : Kline) (k : DetCore) : DetCore :=
  if is_inside range_4h c.close then
    if k.state ≠ RState.INSIDE then
      { state := .INSIDE, current_exit := none, exit_index := none }
    else k
  else if range_4h.high < c.close then { k with state := .OUTSIDE_ABOVE }
  else if c.close < range_4h.low then { k with state := .OUTSIDE_BELOW }
  else k

/-- The state transition of one iteration of `detect_entry_signals`
(`logic/entry_signals.py` lines 47-202), with the signal emission split off
into `detectAppend`; the transition itself never reads the lookahead bar,
which only feeds the emitted signal. -/
def detectCore (range_4h : Range4HNY) (i : ℕ) (c : Kline) (k : DetCore) : DetCore :=
  let o := c.open_
  let cl := c.close
  match k.state with
  | RState.INSIDE =>
    if crossesLevel o cl range_4h.high ∧ range_4h.high < cl then
      { state := .OUTSIDE_ABOVE, current_exit := some (exitUpEvent range_4h c),
        exit_index := some i }
    else if crossesLevel o cl range_4h.low ∧ cl < range_4h.low then
      { state := .OUTSIDE_BELOW, current_exit := some (exitDownEvent range_4h c),
        exit_index := some i }
    else detectFall range_4h c k
  | RState.OUTSIDE_ABOVE =>
    match k.current_exit, k.exit_index with
    | some e, some _ =>
      if e.kind = "EXIT_UP" ∧ crossesLevel o cl range_4h.high ∧ is_inside range_4h cl then
        { state := .INSIDE, current_exit := none, exit_index := none }
      else detectFall range_4h c k
    | _, _ => detectFall range_4h c k
  | RState.OUTSIDE_BELOW =>
    match k.current_exit, k.exit_index with
    | some e, some _ =>
      if e.kind = "EXIT_DOWN" ∧ crossesLevel o cl range_4h.low ∧ is_inside range_4h cl then
        { state := .INSIDE, current_exit := none, exit_index := none }
      else detectFall range_4h c k
    | _, _ => detectFall range_4h c k

/-- The signal emitted by one iteration of `detect_entry_signals`
(`logic/entry_signals.py` lines 104-132 and 156-183): zero or one entries,
built from the lookahead bar `all[i+1]` and the exit-to-reentry segment. -/
def detectAppend (range_4h : Range4HNY) (all : List Kline) (i : ℕ) (c : Kline)
    (k : DetCore) : List EntrySignal :=
  let o := c.open_
  let cl := c.close
  match k.state, k.current_exit, k.exit_index with
  | RState.OUTSIDE_ABOVE, some e, some ei =>
    if e.kind = "EXIT_UP" ∧ crossesLevel o cl range_4h.high ∧ is_inside range_4h cl then
      match all[i + 1]? with
      | some next_candle =>
        let entry_price := next_candle.open_
        let segment := (all.drop ei).take (i + 1 - ei)
        let sl_price := maxHigh segment
        let risk := sl_price - entry_price
        if 0 < risk then
          [{ symbol := c.symbol, side := "SHORT", range_side := "HIGH",
             exit_event := e, reentry_event := reentryAboveEvent range_4h c,
             entry_time := next_candle.open_time, entry_price := entry_price,
             sl_price := sl_price, tp_price := entry_price - 2 * risk,
             risk := risk, rr := 2 }]
        else []
      | none => []
    else []
  | RState.OUTSIDE_BELOW, some e, some ei =>
    if e.kind = "EXIT_DOWN" ∧ crossesLevel o cl range_4h.low ∧ is_inside range_4h cl then
      match all[i + 1]? with
      | some next_candle =>
        let entry_price := next_candle.open_
        let segment := (all.drop ei).take (i + 1 - ei)
        let sl_price := minLow segment
        let risk := entry_price - sl_price
        if 0 < risk then
          [{ symbol := c.symbol, side := "LONG", range_side := "LOW",
             exit_event := e, reentry_event := reentryBelowEvent range_4h c,
             entry_time := next_candle.open_time, entry_price := entry_price,
             sl_price := sl_price, tp_price := entry_price + 2 * risk,
             risk := risk, rr := 2 }]
        else []
      | none => []
    else []
  | _, _, _ => []

/-- One full iteration of the `detect_entry_signals` loop. -/
def detectStep (range_4h : Range4HNY) (all : List Kline) (i : ℕ) (c : Kline)
    (st : DetCore × List EntrySignal) : DetCore × List EntrySignal :=
  (detectCore range_4h i c st.1, st.2 ++ detectAppend range_4h all i c st.1)

/-- The `for i in range(n)` loop of `detect_entry_signals`: `l` is the list
of bars still to process, `i` the index of its head inside `all`. -/
def detectLoop (range_4h : Range4HNY) (all : List Kline) :
    List Kline → ℕ → DetCore × List EntrySignal → DetCore × List EntrySignal
  | [], _, st => st
  | c :: rest, i, st => detectLoop range_4h all rest (i + 1) (detectStep range_4h all i c st)

/-- `detect_entry_signals(range_4h, candles_5m)` from
`logic/entry_signals.py` lines 8-204. -/
def detect_entry_signals (range_4h : Range4HNY) (candles_5m : List Kline) :
    List EntrySignal :=
  (detectLoop range_4h candles_5m candles_5m 0 (initCore, [])).2

/-! ## Live engine (`logic/trading_engine.py`, `data/trade.py`) -/

/-- `Trade` from `data/trade.py`. -/
structure Trade where
  id : ℕ
  symbol : String
  side : String
  entry_time : ℤ
  entry_price : ℚ
  sl_price : ℚ
  tp_price : ℚ
  opened_from_signal : EntrySignal
  closed_at : Option ℤ := none
  close_price : Option ℚ := none
  result : Option String := none
  rr : Option ℚ := none
  pl_points : Option ℚ := none
  deriving DecidableEq, Repr

/-- `Trade.is_open` from `data/trade.py`. -/
def Trade.is_open (t : Trade) : Bool := t.closed_at.isNone

/-- The state of `TradingEngine` (`logic/trading_engine.py` lines 34-48). -/
structure TradingEngine where
  symbol : String
  current_range : Option Range4HNY := none
  current_range_day : Option ℤ := none
  candles_from_4h : List Kline := []
  active_trade : Option Trade := none
  trade_counter : ℕ := 0
  seen_entry_times : Finset ℤ := ∅
  deriving DecidableEq

/-- The external collaborators of the engine: the timezone conversion
(`astimezone(TRADING_TIMEZONE)` read as a trading-day number and an hour)
and the two futures market-data fetchers imported at
`logic/trading_engine.py` lines 15-19. -/
structure MarketEnv where
  nyDate : ℤ → ℤ
  nyHour : ℤ → ℤ
  first_4h_range : String → Option Range4HNY
  candles_5m_history : String → Option (List Kline)

/-- The SL/TP flags of `_update_active_trade_with_candle`
(`logic/trading_engine.py` lines 209-225), with the `elif` priority baked
in: `(sl_hit, tp_hit)`. -/
def tradeHitFlags (t : Trade) (c : Kline) : Bool × Bool :=
  if t.side = "LONG" then
    if c.low ≤ t.sl_price then (true, false)
    else if t.tp_price ≤ c.high then (false, true)
    else (false, false)
  else if t.side = "SHORT" then
    if t.sl_price ≤ c.high then (true, false)
    else if c.low ≤ t.tp_price then (false, true)
    else (false, false)
  else (false, false)

/-- The mutation `_update_active_trade_with_candle` performs on the trade
object itself (`logic/trading_engine.py` lines 197-248). -/
def updateTradeWithCandle (t : Trade) (c : Kline) : Trade :=
  if t.is_open = false then t
  else
    let flags := tradeHitFlags t c
    if flags.1 = false ∧ flags.2 = false then t
    else
      let close_price := if flags.1 then t.sl_price else t.tp_price
      let risk := if t.side = "LONG" then t.entry_price - t.sl_price
                  else t.sl_price - t.entry_price
      let pl := if t.side = "LONG" then close_price - t.entry_price
                else t.entry_price - close_price
      { t with
        closed_at := some c.close_time
        result := some (if flags.1 then "SL" else "TP")
        close_price := some close_price
        pl_points := some pl
        rr := if risk = 0 then none else some (pl / risk) }

/-- `_update_active_trade_with_candle` seen from the engine: after a close
the `active_trade` slot is emptied (`logic/trading_engine.py` line 267). -/
def engineUpdateActive (s : TradingEngine) (c : Kline) : TradingEngine :=
  match s.active_trade with
  | none => s
  | some t =>
    if t.is_open then
      if (updateTradeWithCandle t c).closed_at.isSome then { s with active_trade := none }
      else s
    else s

/-- `_open_trade_from_signal` (`logic/trading_engine.py` lines 167-195). -/
def openTradeFromSignal (s : TradingEngine) (signal : EntrySignal) : TradingEngine :=
  let counter := s.trade_counter + 1
  { s with
    trade_counter := counter
    active_trade := some
      { id := counter, symbol := signal.symbol, side := signal.side,
        entry_time := signal.entry_time, entry_price := signal.entry_price,
        sl_price := signal.sl_price, tp_price := signal.tp_price,
        opened_from_signal := signal } }

/-- `_init_range_and_history` (`logic/trading_engine.py` lines 124-165). -/
def initRangeAndHistory (env : MarketEnv) (s : TradingEngine) (latest_candle : Kline) :
    TradingEngine :=
  if env.nyHour latest_candle.open_time < 4 then s
  else
    match env.first_4h_range s.symbol with
    | none => s
    | some rng =>
      let history := (env.candles_5m_history s.symbol).getD []
      let s' := { s with current_range := some rng, candles_from_4h := history }
      if history = [] then s'
      else
        { s' with seen_entry_times := s'.seen_entry_times
            ∪ ((detect_entry_signals rng history).map (·.entry_time)).toFinset }

/-- The per-episode reset of step 1 of `on_new_candle`
(`logic/trading_engine.py` lines 69-74): range, bar history and the
consumed-signal set are cleared, the day is restamped, and the open trade
is not touched. -/
def dayResetState (s : TradingEngine) (ny_date : ℤ) : TradingEngine :=
  { s with
    current_range := none
    current_range_day := some ny_date
    candles_from_4h := []
    seen_entry_times := ∅ }

/-- `on_new_candle` (`logic/trading_engine.py` lines 53-119), one bar of the
live engine protocol. -/
def on_new_candle (env : MarketEnv) (s : TradingEngine) (candle : Kline) : TradingEngine :=
  if candle.symbol ≠ s.symbol then s
  else
    let ny_date := env.nyDate candle.open_time
    let ny_hour := env.nyHour candle.open_time
    let s1 := if s.current_range_day = none ∨ s.current_range_day ≠ some ny_date then
        dayResetState s ny_date
      else s
    let s2 := engineUpdateActive s1 candle
    if 0 ≤ ny_hour ∧ ny_hour < 4 then s2
    else
      match s2.current_range with
      | none => initRangeAndHistory env s2 candle
      | some rng =>
        let s3 := { s2 with candles_from_4h := s2.candles_from_4h ++ [candle] }
        if (s3.active_trade.map Trade.is_open).getD false then s3
        else
          let signals := detect_entry_signals rng s3.candles_from_4h
          let new_signals := signals.filter
            (fun sg => decide (sg.entry_time = candle.open_time
              ∧ sg.entry_time ∉ s3.seen_entry_times))
          if hns : new_signals = [] then s3
          else
            let s4 := { s3 with seen_entry_times := s3.seen_entry_times
              ∪ (new_signals.map (·.entry_time)).toFinset }
            openTradeFromSignal s4 (new_signals.getLast hns)

/-- Feeding a bar sequence one bar at a time to the live engine. -/
def feedCandles (env : MarketEnv) (s : TradingEngine) (bars : List Kline) : TradingEngine :=
  bars.foldl (on_new_candle env) s

/-- Modelled from the spec: the batch Trade Simulator rule of spec section
4.5 for a trade already opened at a known entry, applied to the bars that
follow it, used as the specification side of the batch/live refinement
claim.  For a LONG a bar triggers SL when `low <= stop` and TP when
`high >= target`, SL wins a same-bar double touch, mirror for SHORT; the
exit is at the stop/target price on the first touching bar.  (The
repository has no batch simulator for the range-break signal shape; its
per-strategy simulators v2.5/v3/v4pro all implement this same scan-forward
SL-first rule for their own signal types.) -/
def specScanExit (side : String) (stop target : ℚ) : List Kline → Option (Kline × String × ℚ)
  | [] => none
  | c :: rest =>
    if side = "LONG" then
      if c.low ≤ stop then some (c, "SL", stop)
      else if target ≤ c.high then some (c, "TP", target)
      else specScanExit side stop target rest
    else
      if stop ≤ c.high then some (c, "SL", stop)
      else if c.low ≤ target then some (c, "TP", target)
      else specScanExit side stop target rest

/-- The fixed 4h range used by the concrete test inputs in this file. -/
def testRange : Range4HNY :=
  { symbol := "BTCUSDT", high := 110, low := 100, count := 48,
    start_ny := 0, end_ny := 0, start_utc := 0, end_utc := 0, start_vn := 0, end_vn := 0 }

/-- A placeholder originating signal for concretely built `Trade` values. -/
def dummySignal : EntrySignal :=
  { symbol := "BTCUSDT", side := "SHORT", range_side := "HIGH",
    exit_event := exitUpEvent testRange (mkBar 0 105 113 104 112),
    reentry_event := reentryAboveEvent testRange (mkBar 1 112 112 107 108),
    entry_time := 2, entry_price := 109, sl_price := 113, tp_price := 101,
    risk := 4, rr := 2 }

def c2Bar : SimpleKline :=
  { open_time := 1, close_time := 1, open_ := 100, high := 120, low := 80, close := 100 }

def c2Kline : Kline := mkBar 1 100 120 80 100

def c2TradeLong : Trade :=
  { id := 1, symbol := "BTCUSDT", side := "LONG", entry_time := 0,
    entry_price := 100, sl_price := 90, tp_price := 110,
    opened_from_signal := dummySignal }

def c2TradeShort : Trade :=
  { id := 2, symbol := "BTCUSDT", side := "SHORT", entry_time := 0,
    entry_price := 100, sl_price := 110, tp_price := 90,
    opened_from_signal := dummySignal }

def c4Entry : SimpleKline :=
  { open_time := 0, close_time := 0, open_ := 100, high := 100, low := 100, close := 100 }

def c4Next : SimpleKline :=
  { open_time := 1, close_time := 1, open_ := 105, high := 110, low := 95, close := 105 }

def w25Sig : EntrySignalV25 :=
  { index := 0, side := "LONG", entry_price := 100, sl := 95, tp := 120, atr_value := 1 }

def w25Bars : List Kline := [mkBar 0 100 100 100 100, mkBar 1 105 110 96 105]

def w3Sig : EntrySignalV3 :=
  { index := 0, side := "LONG", ema_fast := 0, ema_slow := 0, atr := 1 }

def w3C0 : Candle :=
  { index := 0, open_time := 0, close_time := 0, open_ := 100, high := 100, low := 99,
    close := 100, volume := 0 }

def w3C1 : Candle :=
  { index := 1, open_time := 1, close_time := 1, open_ := 100, high := 101, low := 199 / 2,
    close := 100, volume := 0 }

def w3Bars : List Candle := [w3C0, w3C1]

/-- A timezone/market environment for concrete runs: one trading day (day
number 0), every bar at NY hour 5, fetchers never used. -/
def stdEnv : MarketEnv :=
  { nyDate := fun _ => 0, nyHour := fun _ => 5,
    first_4h_range := fun _ => none, candles_5m_history := fun _ => none }

def c6Trade : Trade :=
  { id := 1, symbol := "BTCUSDT", side := "SHORT", entry_time := 2,
    entry_price := 109, sl_price := 113, tp_price := 101,
    opened_from_signal := dummySignal }

def c6State : TradingEngine :=
  { symbol := "BTCUSDT", current_range := some testRange, current_range_day := some 0,
    candles_from_4h := [], active_trade := some c6Trade, trade_counter := 1 }

def c7Trade : Trade :=
  { id := 3, symbol := "BTCUSDT", side := "LONG", entry_time := -50,
    entry_price := 105, sl_price := 95, tp_price := 125,
    opened_from_signal := dummySignal }

def c7State : TradingEngine :=
  { symbol := "BTCUSDT", current_range := some testRange, current_range_day := some (-1),
    candles_from_4h := [mkBar (-40) 105 106 104 105], active_trade := some c7Trade,
    trade_counter := 3, seen_entry_times := {-45} }

/-- The signal list produced by running the `detect_entry_signals` loop over
the first `m` bars of `cs`, with segment and lookahead reads against the
full array `cs`. -/
def sigsUpTo (range_4h : Range4HNY) (cs : List Kline) (m : ℕ) : List EntrySignal :=
  (detectLoop range_4h cs (cs.take m) 0 (initCore, [])).2

/-- The detector core state after the first `m` bars of `cs`. -/
def coreUpTo (range_4h : Range4HNY) (cs : List Kline) (m : ℕ) : DetCore :=
  (detectLoop range_4h cs (cs.take m) 0 (initCore, [])).1

def cxb0 : Kline := mkBar 0 105 113 104 112

def cxb1 : Kline := mkBar 1 112 112 107 108

def cxb2 : Kline := mkBar 2 109 110 104 105

def cxb3 : Kline := mkBar 3 105 112 104 112

def cxb4 : Kline := mkBar 4 112 112 107 108

def cxb5 : Kline := mkBar 5 109 109 108 (217/2)

def cexBars : List Kline := [cxb0, cxb1, cxb2, cxb3, cxb4, cxb5]

def c1Start : TradingEngine :=
  { symbol := "BTCUSDT", current_range := some testRange, current_range_day := some 0 }

def sigma1 : EntrySignal :=
  { symbol := "BTCUSDT", side := "SHORT", range_side := "HIGH",
    exit_event := exitUpEvent testRange cxb0,
    reentry_event := reentryAboveEvent testRange cxb1,
    entry_time := 2, entry_price := 109, sl_price := 113, tp_price := 101,
    risk := 4, rr := 2 }

def sigma2 : EntrySignal :=
  { symbol := "BTCUSDT", side := "SHORT", range_side := "HIGH",
    exit_event := exitUpEvent testRange cxb3,
    reentry_event := reentryAboveEvent testRange cxb4,
    entry_time := 5, entry_price := 109, sl_price := 112, tp_price := 103,
    risk := 3, rr := 2 }

def tr1 : Trade :=
  { id := 1, symbol := "BTCUSDT", side := "SHORT", entry_time := 2,
    entry_price := 109, sl_price := 113, tp_price := 101, opened_from_signal := sigma1 }

def e1 : TradingEngine :=
  { symbol := "BTCUSDT", current_range := some testRange, current_range_day := some 0,
    candles_from_4h := [cxb0] }

def e2 : TradingEngine :=
  { symbol := "BTCUSDT", current_range := some testRange, current_range_day := some 0,
    candles_from_4h := [cxb0, cxb1] }

def e3 : TradingEngine :=
  { symbol := "BTCUSDT", current_range := some testRange, current_range_day := some 0,
    candles_from_4h := [cxb0, cxb1, cxb2], active_trade := some tr1, trade_counter := 1,
    seen_entry_times := {2} }

def e4 : TradingEngine :=
  { symbol := "BTCUSDT", current_range := some testRange, current_range_day := some 0,
    candles_from_4h := [cxb0, cxb1, cxb2, cxb3], active_trade := some tr1,
    trade_counter := 1, seen_entry_times := {2} }

def e5 : TradingEngine :=
  { symbol := "BTCUSDT", current_range := some testRange, current_range_day := some 0,
    candles_from_4h := [cxb0, cxb1, cxb2, cxb3, cxb4], active_trade := some tr1,
    trade_counter := 1, seen_entry_times := {2} }

def e6 : TradingEngine :=
  { symbol := "BTCUSDT", current_range := some testRange, current_range_day := some 0,
    candles_from_4h := [cxb0, cxb1, cxb2, cxb3, cxb4, cxb5], active_trade := some tr1,
    trade_counter := 1, seen_entry_times := {2} }

/-- What the detector state guarantees about a recorded exit: its index is
in the past and its stored candle really is the bar at that index. -/
def CoreOk (all : List Kline) (i : ℕ) (k : DetCore) : Prop :=
  ∀ ei : ℕ, k.exit_index = some ei →
    ei ≤ i ∧ ∃ e, k.current_exit = some e ∧ all[ei]? = some e.candle

/-- The shape of every signal the range break/re-entry detector emits: a
SHORT completes an exit-up cycle with entry at the next bar's open, stop at
the maximum high of the exit-to-reentry segment and target at
`entry - 2 * (stop - entry)`; a LONG mirrors it below the range. -/
def RangeSignalShape (range_4h : Range4HNY) (all : List Kline) (σ : EntrySignal) : Prop :=
  ∃ ei ri : ℕ, ∃ nxt : Kline,
    ei ≤ ri ∧ all[ri + 1]? = some nxt
    ∧ all[ei]? = some σ.exit_event.candle
    ∧ all[ri]? = some σ.reentry_event.candle
    ∧ σ.entry_time = nxt.open_time
    ∧ σ.entry_price = nxt.open_
    ∧ ((σ.side = "SHORT" ∧ σ.range_side = "HIGH"
        ∧ σ.exit_event.kind = "EXIT_UP"
        ∧ σ.sl_price = maxHigh ((all.drop ei).take (ri + 1 - ei))
        ∧ σ.risk = σ.sl_price - σ.entry_price
        ∧ 0 < σ.risk
        ∧ σ.tp_price = σ.entry_price - 2 * (σ.sl_price - σ.entry_price))
      ∨ (σ.side = "LONG" ∧ σ.range_side = "LOW"
        ∧ σ.exit_event.kind = "EXIT_DOWN"
        ∧ σ.sl_price = minLow ((all.drop ei).take (ri + 1 - ei))
        ∧ σ.risk = σ.entry_price - σ.sl_price
        ∧ 0 < σ.risk
        ∧ σ.tp_price = σ.entry_price + 2 * (σ.entry_price - σ.sl_price)))

/-! ## The v2 EMA-pullback entry generator (`logic/ema_pullback_v2.py`) -/

/-- Inductive `TrendSide` from `logic/ema_pullback_v2.py`. -/
inductive TrendSide
  | UP
  | DOWN
  | NONE
  deriving DecidableEq, Repr

/-- Structure `CandleWithInd` from `logic/ema_pullback_v2.py`: a 5m candle with its
pre-computed fast and slow EMA and ATR values. -/
structure CandleWithInd where
  open_time : ℤ
  open_ : ℚ
  high : ℚ
  low : ℚ
  close : ℚ
  ema_fast : ℚ
  ema_slow : ℚ
  atr : ℚ
  deriving DecidableEq, Repr

/-- Structure `EntrySignal` from `logic/ema_pullback_v2.py`. -/
structure EntrySignalV2 where
  index : ℕ
  side : Side
  trend_side : TrendSide
  entry_price : ℚ
  sl : ℚ
  tp : ℚ
  risk_pts : ℚ
  rr : ℚ
  deriving DecidableEq, Repr

/-- Structure `EmaPullbackParams` from `logic/ema_pullback_v2.py` with its defaults. -/
structure EmaPullbackParams where
  ema_fast_period : ℤ := 21
  ema_slow_period : ℤ := 200
  atr_period : ℤ := 14
  r_mult : ℚ := 2
  use_atr_buffer : Bool := true
  atr_buffer_mult : ℚ := 3 / 10
  min_trend_ema_distance_atr : ℚ := 1 / 2
  min_trend_bars : ℕ := 5
  min_pullback_bars : ℕ := 2
  max_pullback_bars : ℕ := 10
  min_pullback_depth_atr : ℚ := 1 / 2
  max_pullback_depth_atr : ℚ := 5 / 2
  max_entry_distance_from_ema_atr : ℚ := 7 / 10
  max_pullbacks_per_trend : ℕ := 3
  deriving DecidableEq, Repr

/-- Function `_detect_trend` from `logic/ema_pullback_v2.py` lines 120-142. -/
def detect_trend (c : CandleWithInd) (params : EmaPullbackParams) : TrendSide :=
  if c.atr ≤ 0 then TrendSide.NONE
  else
    let diff := c.ema_fast - c.ema_slow
    let threshold := params.min_trend_ema_distance_atr * c.atr
    if threshold ≤ diff then TrendSide.UP
    else if threshold ≤ -diff then TrendSide.DOWN
    else TrendSide.NONE

/-- The mutable locals of `find_ema_pullback_entries_v2`
(`logic/ema_pullback_v2.py` lines 185-198), together with the growing
`signals` list. -/
structure PBState where
  signals : List EntrySignalV2 := []
  current_trend : TrendSide := TrendSide.NONE
  trend_bars : ℕ := 0
  swing_high_price : Option ℚ := none
  swing_low_price : Option ℚ := none
  pullback_active : Bool := false
  pullback_start_index : Option ℕ := none
  pullback_high : Option ℚ := none
  pullback_low : Option ℚ := none
  pullback_bars : ℕ := 0
  pullback_count_in_trend : ℕ := 0
  deriving DecidableEq, Repr

/-- Closure `reset_pullback` from `logic/ema_pullback_v2.py` lines 200-206. -/
def reset_pullback (st : PBState) : PBState :=
  { st with
      pullback_active := false
      pullback_start_index := none
      pullback_high := none
      pullback_low := none
      pullback_bars := 0 }

/-- Python `max(old, x) if old is not None else x` as used throughout the v2 swing
and pullback updates. -/
def swingMax (o : Option ℚ) (x : ℚ) : ℚ :=
  match o with
  | some v => max v x
  | none => x

/-- Python `min(old, x) if old is not None else x`. -/
def swingMin (o : Option ℚ) (x : ℚ) : ℚ :=
  match o with
  | some v => min v x
  | none => x

/-- The UP-trend section of the v2 loop body (`logic/ema_pullback_v2.py`
lines 260-345), entered with `trend_bars` already incremented. -/
def pbUpBody (params : EmaPullbackParams) (i : ℕ) (c : CandleWithInd)
    (st : PBState) : PBState :=
  if st.pullback_active = false then
    let st1 := { st with swing_high_price := some (swingMax st.swing_high_price c.high) }
    if c.close < c.ema_fast then
      { st1 with
          pullback_active := true
          pullback_start_index := some i
          pullback_high := some c.high
          pullback_low := some c.low
          pullback_bars := 1 }
    else st1
  else
    let pb_bars := st.pullback_bars + 1
    let pb_high := swingMax st.pullback_high c.high
    let pb_low := swingMin st.pullback_low c.low
    let st1 := { st with
        pullback_bars := pb_bars
        pullback_high := some pb_high
        pullback_low := some pb_low }
    if params.max_pullback_bars < pb_bars then reset_pullback st1
    else if st1.swing_high_price = none ∨ c.atr ≤ 0 then st1
    else
      let swing_high := st1.swing_high_price.getD 0
      let depth_atr := (swing_high - pb_low) / c.atr
      if params.max_pullback_depth_atr < depth_atr then reset_pullback st1
      else if c.ema_fast < c.close ∧ c.low ≤ c.ema_fast
          ∧ params.min_pullback_bars ≤ pb_bars
          ∧ params.min_pullback_depth_atr ≤ depth_atr then
        let dist_from_ema := |c.close - c.ema_fast|
        if params.max_entry_distance_from_ema_atr * c.atr < dist_from_ema then
          { (reset_pullback st1) with swing_high_price := some c.high }
        else
          let entry_price := c.close
          let buffer := if params.use_atr_buffer then params.atr_buffer_mult * c.atr else 0
          let sl := pb_low - buffer
          if entry_price ≤ sl then
            { (reset_pullback st1) with swing_high_price := some c.high }
          else
            let risk := entry_price - sl
            let tp := entry_price + params.r_mult * risk
            let sig : EntrySignalV2 :=
              { index := i
                side := Side.LONG
                trend_side := TrendSide.UP
                entry_price := entry_price
                sl := sl
                tp := tp
                risk_pts := risk
                rr := params.r_mult }
            { (reset_pullback st1) with
                signals := st1.signals ++ [sig]
                pullback_count_in_trend := st1.pullback_count_in_trend + 1
                swing_high_price := some c.high }
      else st1

/-- The DOWN-trend section of the v2 loop body (`logic/ema_pullback_v2.py`
lines 350-427), the mirror of `pbUpBody`. -/
def pbDownBody (params : EmaPullbackParams) (i : ℕ) (c : CandleWithInd)
    (st : PBState) : PBState :=
  if st.pullback_active = false then
    let st1 := { st with swing_low_price := some (swingMin st.swing_low_price c.low) }
    if c.ema_fast < c.close then
      { st1 with
          pullback_active := true
          pullback_start_index := some i
          pullback_high := some c.high
          pullback_low := some c.low
          pullback_bars := 1 }
    else st1
  else
    let pb_bars := st.pullback_bars + 1
    let pb_high := swingMax st.pullback_high c.high
    let pb_low := swingMin st.pullback_low c.low
    let st1 := { st with
        pullback_bars := pb_bars
        pullback_high := some pb_high
        pullback_low := some pb_low }
    if params.max_pullback_bars < pb_bars then reset_pullback st1
    else if st1.swing_low_price = none ∨ c.atr ≤ 0 then st1
    else
      let swing_low := st1.swing_low_price.getD 0
      let depth_atr := (pb_high - swing_low) / c.atr
      if params.max_pullback_depth_atr < depth_atr then reset_pullback st1
      else if c.close < c.ema_fast ∧ c.ema_fast ≤ c.high
          ∧ params.min_pullback_bars ≤ pb_bars
          ∧ params.min_pullback_depth_atr ≤ depth_atr then
        let dist_from_ema := |c.close - c.ema_fast|
        if params.max_entry_distance_from_ema_atr * c.atr < dist_from_ema then
          { (reset_pullback st1) with swing_low_price := some c.low }
        else
          let entry_price := c.close
          let buffer := if params.use_atr_buffer then params.atr_buffer_mult * c.atr else 0
          let sl := pb_high + buffer
          if sl ≤ entry_price then
            { (reset_pullback st1) with swing_low_price := some c.low }
          else
            let risk := sl - entry_price
            let tp := entry_price - params.r_mult * risk
            let sig : EntrySignalV2 :=
              { index := i
                side := Side.SHORT
                trend_side := TrendSide.DOWN
                entry_price := entry_price
                sl := sl
                tp := tp
                risk_pts := risk
                rr := params.r_mult }
            { (reset_pullback st1) with
                signals := st1.signals ++ [sig]
                pullback_count_in_trend := st1.pullback_count_in_trend + 1
                swing_low_price := some c.low }
      else st1

/-- The trend-held part of the loop body (`logic/ema_pullback_v2.py` lines
236-427), entered with `trend_bars` already incremented and
`current_trend ≠ NONE`. -/
def pbTrendBody (params : EmaPullbackParams) (i : ℕ) (c : CandleWithInd)
    (st : PBState) : PBState :=
  if st.trend_bars < params.min_trend_bars then
    if st.current_trend = TrendSide.UP then
      { st with
          swing_high_price := some (swingMax st.swing_high_price c.high)
          swing_low_price := some (swingMin st.swing_low_price c.low) }
    else
      { st with
          swing_low_price := some (swingMin st.swing_low_price c.low)
          swing_high_price := some (swingMax st.swing_high_price c.high) }
  else if 0 < params.max_pullbacks_per_trend ∧
      params.max_pullbacks_per_trend ≤ st.pullback_count_in_trend then
    if st.current_trend = TrendSide.UP then
      { st with swing_high_price := some (swingMax st.swing_high_price c.high) }
    else
      { st with swing_low_price := some (swingMin st.swing_low_price c.low) }
  else if st.current_trend = TrendSide.UP then
    pbUpBody params i c st
  else
    pbDownBody params i c st

/-- One iteration of the `for i, c in enumerate(candles)` loop of
`find_ema_pullback_entries_v2` (`logic/ema_pullback_v2.py` lines 208-427). -/
def pbStep (params : EmaPullbackParams) (i : ℕ) (c : CandleWithInd)
    (st : PBState) : PBState :=
  let bar_trend := detect_trend c params
  if bar_trend ≠ st.current_trend then
    if bar_trend = TrendSide.NONE then
      reset_pullback { st with
        current_trend := bar_trend
        trend_bars := 0
        swing_high_price := none
        swing_low_price := none
        pullback_count_in_trend := 0 }
    else
      reset_pullback { st with
        current_trend := bar_trend
        trend_bars := 1
        swing_high_price := some c.high
        swing_low_price := some c.low
        pullback_count_in_trend := 0 }
  else if st.current_trend = TrendSide.NONE then st
  else
    pbTrendBody params i c { st with trend_bars := st.trend_bars + 1 }

/-- The enumerate loop itself. -/
def pbLoop (params : EmaPullbackParams) : ℕ → List CandleWithInd → PBState → PBState
  | _, [], st => st
  | i, c :: rest, st => pbLoop params (i + 1) rest (pbStep params i c st)

/-- Function `find_ema_pullback_entries_v2` from `logic/ema_pullback_v2.py` lines
145-429. -/
def find_ema_pullback_entries_v2 (candles : List CandleWithInd)
    (params : EmaPullbackParams) : List EntrySignalV2 :=
  (pbLoop params 0 candles {}).signals

/-- The stop of a v2 signal lies strictly on the losing side of the entry. -/
def validSl (σ : EntrySignalV2) : Prop :=
  (σ.side = Side.LONG → σ.sl < σ.entry_price)
  ∧ (σ.side = Side.SHORT → σ.entry_price < σ.sl)

def mkCW (t : ℤ) (h l cl : ℚ) : CandleWithInd :=
  { open_time := t
    open_ := cl
    high := h
    low := l
    close := cl
    ema_fast := 10
    ema_slow := 5
    atr := 1 }

def c9Params : EmaPullbackParams :=
  { min_trend_ema_distance_atr := 0
    min_trend_bars := 1
    min_pullback_bars := 1
    min_pullback_depth_atr := 0
    max_pullback_depth_atr := 100
    max_entry_distance_from_ema_atr := 100
    max_pullbacks_per_trend := 0
    atr_buffer_mult := 1 }

def c9DegParams : EmaPullbackParams :=
  { c9Params with atr_buffer_mult := -5 }

def c9b0 : CandleWithInd := mkCW 0 12 10 11

def c9b1 : CandleWithInd := mkCW 1 (19/2) (44/5) 9

def c9b2 : CandleWithInd := mkCW 2 (53/5) (19/2) (21/2)

def c9b3 : CandleWithInd := mkCW 3 (46/5) 3 9

def c9b4 : CandleWithInd := mkCW 4 (53/5) (19/2) (21/2)

def c9Sig : EntrySignalV2 :=
  { index := 2
    side := Side.LONG
    trend_side := TrendSide.UP
    entry_price := 21/2
    sl := 39/5
    tp := 159/10
    risk_pts := 27/10
    rr := 2 }

def c9DegSig : EntrySignalV2 :=
  { index := 4
    side := Side.LONG
    trend_side := TrendSide.UP
    entry_price := 21/2
    sl := 8
    tp := 31/2
    risk_pts := 5/2
    rr := 2 }

def pbSt1 : PBState :=
  { signals := []
    current_trend := TrendSide.UP
    trend_bars := 1
    swing_high_price := some 12
    swing_low_price := some 10
    pullback_active := false
    pullback_start_index := none
    pullback_high := none
    pullback_low := none
    pullback_bars := 0
    pullback_count_in_trend := 0 }

def pbSt2 : PBState :=
  { signals := []
    current_trend := TrendSide.UP
    trend_bars := 2
    swing_high_price := some 12
    swing_low_price := some 10
    pullback_active := true
    pullback_start_index := some 1
    pullback_high := some (19/2)
    pullback_low := some (44/5)
    pullback_bars := 1
    pullback_count_in_trend := 0 }

def pbSt3 : PBState :=
  { signals := [c9Sig]
    current_trend := TrendSide.UP
    trend_bars := 3
    swing_high_price := some (53/5)
    swing_low_price := some 10
    pullback_active := false
    pullback_start_index := none
    pullback_high := none
    pullback_low := none
    pullback_bars := 0
    pullback_count_in_trend := 1 }

def pbDegSt3 : PBState :=
  { signals := []
    current_trend := TrendSide.UP
    trend_bars := 3
    swing_high_price := some (53/5)
    swing_low_price := some 10
    pullback_active := false
    pullback_start_index := none
    pullback_high := none
    pullback_low := none
    pullback_bars := 0
    pullback_count_in_trend := 0 }

def pbDegSt4 : PBState :=
  { signals := []
    current_trend := TrendSide.UP
    trend_bars := 4
    swing_high_price := some (53/5)
    swing_low_price := some 10
    pullback_active := true
    pullback_start_index := some 3
    pullback_high := some (46/5)
    pullback_low := some 3
    pullback_bars := 1
    pullback_count_in_trend := 0 }

def pbDegSt5 : PBState :=
  { signals := [c9DegSig]
    current_trend := TrendSide.UP
    trend_bars := 5
    swing_high_price := some (53/5)
    swing_low_price := some 10
    pullback_active := false
    pullback_start_index := none
    pullback_high := none
    pullback_low := none
    pullback_bars := 0
    pullback_count_in_trend := 1 }

/-! ## Batch/live parity: the conditional refinement -/

/-- The set of entry times of a signal list, as the engine's
`seen_entry_times` accumulates them. -/
def entryTimes (l : List EntrySignal) : Finset ℤ := (l.map (·.entry_time)).toFinset

/-- The trade `_open_trade_from_signal` builds for a given id. -/
def tradeFromSignal (n : ℕ) (σ : EntrySignal) : Trade :=
  { id := n, symbol := σ.symbol, side := σ.side, entry_time := σ.entry_time,
    entry_price := σ.entry_price, sl_price := σ.sl_price, tp_price := σ.tp_price,
    opened_from_signal := σ }

/-- The live-engine state after `t` bars of a one-day feed mirrors the batch
state machine: history is the bar prefix, the consumed-signal set and the
trade counter match the batch signal list over that prefix. -/
@[reducible] def EngInv (rng : Range4HNY) (d : ℤ) (sym : String) (cs : List Kline) (t : ℕ)
    (s : TradingEngine) : Prop :=
  s.symbol = sym
  ∧ s.current_range_day = some d
  ∧ s.current_range = some rng
  ∧ s.candles_from_4h = cs.take t
  ∧ s.seen_entry_times = entryTimes (sigsUpTo rng cs (t - 1))
  ∧ s.trade_counter = (sigsUpTo rng cs (t - 1)).length

/-! ## Theorems -/

theorem emaRec_length (k prev : ℚ) (vs : List ℚ) : (emaRec k prev vs).length = vs.length := by
  induction vs generalizing prev with
  | nil => rfl
  | cons v vs ih => simp [emaRec, ih]

theorem emaRec_get_zero (k prev v : ℚ) (vs : List ℚ) :
    (emaRec k prev (v :: vs))[0]? = some (v * k + prev * (1 - k)) := by
  simp [emaRec]

theorem emaRec_get_succ (k prev : ℚ) (vs : List ℚ) (i : ℕ) (a v : ℚ)
    (ha : (emaRec k prev vs)[i]? = some a) (hv : vs[i + 1]? = some v) :
    (emaRec k prev vs)[i + 1]? = some (v * k + a * (1 - k)) := by
  induction vs generalizing prev i with
  | nil => simp [emaRec] at ha
  | cons w ws ih =>
    cases i with
    | zero =>
      simp only [emaRec, List.getElem?_cons_zero, List.getElem?_cons_succ] at ha hv ⊢
      cases ws with
      | nil => simp at hv
      | cons u us =>
        simp only [List.getElem?_cons_zero] at hv ⊢
        cases ha; cases hv
        simp [emaRec]
    | succ j =>
      simp only [emaRec, List.getElem?_cons_succ] at ha hv ⊢
      exact ih _ _ ha hv

theorem replicate_get_lt {α : Type} (a : α) {m i : ℕ} (h : i < m) :
    (List.replicate m a)[i]? = some a := by
  induction m generalizing i with
  | zero => omega
  | succ m ih =>
    cases i with
    | zero => simp [List.replicate]
    | succ j => simpa [List.replicate] using ih (by omega)

/-- In the seeded branch the `ema` output is an explicit append. -/
theorem ema_eq_append (values : List ℚ) (period : ℤ) (hp : 0 < period)
    (hlen : period ≤ (values.length : ℤ)) :
    ema values period
      = List.replicate (period.toNat - 1) none
          ++ some ((values.take period.toNat).sum / (period.toNat : ℚ))
            :: (emaRec (2 / ((period : ℚ) + 1))
                  ((values.take period.toNat).sum / (period.toNat : ℚ))
                  (values.drop period.toNat)).map some := by
  have hne : ¬(values = [] ∨ period ≤ 0) := by
    rintro (h | h)
    · subst h; simp at hlen; omega
    · omega
  have hlt : ¬((values.length : ℤ) < period) := by omega
  simp only [ema, if_neg hne, if_neg hlt]

/-- C5: `ema(values, period)` returns a list of the same length as the input;
entries before index `period-1` are undefined; the entry at `period-1` is the
simple average of the first `period` values; later entries follow
`ema[i] = value[i]*k + ema[i-1]*(1-k)` with `k = 2/(period+1)`; and for
`period <= 0` or an input shorter than `period` the whole result is
undefined. -/
theorem ema_warmup_contract (values : List ℚ) (period : ℤ) :
    ((ema values period).length = values.length)
    ∧ ((period ≤ 0 ∨ (values.length : ℤ) < period) →
        ema values period = List.replicate values.length none)
    ∧ (0 < period → period ≤ (values.length : ℤ) →
        (∀ i : ℕ, i + 1 < period.toNat → (ema values period)[i]? = some none)
        ∧ ((ema values period)[period.toNat - 1]?
            = some (some ((values.take period.toNat).sum / (period.toNat : ℚ))))
        ∧ (∀ i : ℕ, period.toNat ≤ i → i < values.length →
            ∃ a v, (ema values period)[i - 1]? = some (some a)
              ∧ values[i]? = some v
              ∧ (ema values period)[i]?
                  = some (some (v * (2 / ((period : ℚ) + 1))
                      + a * (1 - 2 / ((period : ℚ) + 1)))))) := by
  refine ⟨?_, ?_, ?_⟩
  · -- length contract
    by_cases h1 : values = [] ∨ period ≤ 0
    · simp [ema, h1]
    · by_cases h2 : (values.length : ℤ) < period
      · simp [ema, h1, h2]
      · have hp : 0 < period := by push_neg at h1; omega
        have hlen : period ≤ (values.length : ℤ) := by omega
        have hple : period.toNat ≤ values.length := by omega
        have hp1 : 1 ≤ period.toNat := by omega
        rw [ema_eq_append values period hp hlen]
        simp [emaRec_length, List.length_drop]
        omega
  · -- degenerate contract
    intro h
    rcases h with h | h
    · simp [ema, h]
    · by_cases h1 : values = [] ∨ period ≤ 0
      · simp [ema, h1]
      · simp [ema, h1, h]
  · -- seeded contract
    intro hp hlen
    have hple : period.toNat ≤ values.length := by omega
    have hp1 : 1 ≤ period.toNat := by omega
    set p := period.toNat with hpdef
    set sma := (values.take p).sum / (p : ℚ) with hsma
    set k : ℚ := 2 / ((period : ℚ) + 1) with hk
    have hout := ema_eq_append values period hp hlen
    refine ⟨?_, ?_, ?_⟩
    · intro i hi
      rw [hout, List.getElem?_append_left (by simpa [List.length_replicate] using by omega)]
      exact replicate_get_lt _ (by omega)
    · rw [hout, List.getElem?_append_right (by simp)]
      simp
    · intro i hpi hilen
      have hd : ∀ j : ℕ, (values.drop p)[j]? = values[p + j]? := by
        intro j; exact List.getElem?_drop values p j
      rcases Nat.eq_or_lt_of_le hpi with hip | hip
      · -- i = p : the first recurrence step, fed by the seed
        subst hip
        obtain ⟨v, hv⟩ : ∃ v, values[p]? = some v :=
          ⟨values.get ⟨p, by omega⟩, List.getElem?_eq_getElem (by omega)⟩
        obtain ⟨vs, hvs⟩ : ∃ vs, values.drop p = v :: vs := by
          have h0 : (values.drop p)[0]? = some v := by rw [hd 0]; simpa using hv
          cases hdp : values.drop p with
          | nil => rw [hdp] at h0; simp at h0
          | cons a as =>
            rw [hdp] at h0
            simp at h0
            exact ⟨as, by rw [h0]⟩
        refine ⟨sma, v, ?_, hv, ?_⟩
        · rw [hout, List.getElem?_append_right (by simp)]
          simp
        · rw [hout, List.getElem?_append_right (by simp)]
          have h1 : p - (p - 1) = 1 := by omega
          simp only [List.length_replicate, h1]
          rw [hvs]
          simp [emaRec]
      · -- i > p : recurrence step fed by the previous output entry
        obtain ⟨v, hv⟩ : ∃ v, values[i]? = some v :=
          ⟨values.get ⟨i, by omega⟩, List.getElem?_eq_getElem (by omega)⟩
        have hvdrop : (values.drop p)[i - p]? = some v := by
          rw [hd (i - p)]
          have h1 : p + (i - p) = i := by omega
          rw [h1]; exact hv
        have hlenrec : (emaRec k sma (values.drop p)).length = values.length - p := by
          rw [emaRec_length, List.length_drop]
        obtain ⟨a, ha⟩ : ∃ a, (emaRec k sma (values.drop p))[i - p - 1]? = some a :=
          ⟨(emaRec k sma (values.drop p)).get ⟨i - p - 1, by omega⟩,
            List.getElem?_eq_getElem (by omega)⟩
        have hstep : (emaRec k sma (values.drop p))[i - p]? = some (v * k + a * (1 - k)) := by
          have h1 : i - p - 1 + 1 = i - p := by omega
          have h2 := emaRec_get_succ k sma (values.drop p) (i - p - 1) a v ha
            (by rw [h1]; exact hvdrop)
          rw [h1] at h2; exact h2
        refine ⟨a, v, ?_, hv, ?_⟩
        · rw [hout, List.getElem?_append_right (by simp [List.length_replicate]; omega)]
          have h2 : i - 1 - (p - 1) = (i - p - 1) + 1 := by omega
          simp only [List.length_replicate, h2, List.getElem?_cons_succ, List.getElem?_map]
          simp [ha]
        · rw [hout, List.getElem?_append_right (by simp [List.length_replicate]; omega)]
          have h2 : i - (p - 1) = (i - p) + 1 := by omega
          simp only [List.length_replicate, h2, List.getElem?_cons_succ, List.getElem?_map]
          simp [hstep]

theorem ema_warmup_contract_witness :
    (ema [(1 : ℚ), 3, 5, 7] 2).length = 4
    ∧ (ema [(1 : ℚ), 3, 5, 7] 2)[1]? = some (some 2)
    ∧ ema [(1 : ℚ), 3, 5] 0 = List.replicate 3 none := by
  have h := ema_warmup_contract [(1 : ℚ), 3, 5, 7] 2
  have h0 := ema_warmup_contract [(1 : ℚ), 3, 5] 0
  refine ⟨h.1, ?_, h0.2.1 (by norm_num)⟩
  have h2 := (h.2.2 (by norm_num) (by norm_num)).2.1
  rw [show Int.toNat 2 = 2 from rfl] at h2
  norm_num [List.take] at h2
  exact h2

theorem atrRec_length (period : ℤ) (prev : ℚ) (trs : List ℚ) :
    (atrRec period prev trs).length = trs.length := by
  induction trs generalizing prev with
  | nil => rfl
  | cons tr trs ih => simp [atrRec, ih]

theorem atrRec_get_zero (period : ℤ) (prev tr : ℚ) (trs : List ℚ) :
    (atrRec period prev (tr :: trs))[0]?
      = some ((prev * ((period : ℚ) - 1) + tr) / (period : ℚ)) := by
  simp [atrRec]

theorem atrRec_get_succ (period : ℤ) (prev : ℚ) (trs : List ℚ) (i : ℕ) (a tr : ℚ)
    (ha : (atrRec period prev trs)[i]? = some a) (htr : trs[i + 1]? = some tr) :
    (atrRec period prev trs)[i + 1]? = some ((a * ((period : ℚ) - 1) + tr) / (period : ℚ)) := by
  induction trs generalizing prev i with
  | nil => simp [atrRec] at ha
  | cons w ws ih =>
    cases i with
    | zero =>
      simp only [atrRec, List.getElem?_cons_zero, List.getElem?_cons_succ] at ha htr ⊢
      cases ws with
      | nil => simp at htr
      | cons u us =>
        simp only [List.getElem?_cons_zero] at htr ⊢
        cases ha; cases htr
        simp [atrRec]
    | succ j =>
      simp only [atrRec, List.getElem?_cons_succ] at ha htr ⊢
      exact ih _ _ ha htr

theorem trueRangesFrom_length (prev : Kline) (cs : List Kline) :
    (trueRangesFrom prev cs).length = cs.length := by
  induction cs generalizing prev with
  | nil => rfl
  | cons c rest ih => simp [trueRangesFrom, ih]

theorem trueRanges_length (cs : List Kline) : (trueRanges cs).length = cs.length := by
  cases cs with
  | nil => rfl
  | cons c rest => simp [trueRanges, trueRangesFrom_length]

theorem trueRangesFrom_get (cs : List Kline) (prev : Kline) (i : ℕ) (pc cur : Kline)
    (hpc : (prev :: cs)[i]? = some pc) (hcur : cs[i]? = some cur) :
    (trueRangesFrom prev cs)[i]?
      = some (max (cur.high - cur.low) (max |cur.high - pc.close| |cur.low - pc.close|)) := by
  induction cs generalizing prev i with
  | nil => simp at hcur
  | cons c rest ih =>
    cases i with
    | zero =>
      simp only [List.getElem?_cons_zero] at hpc hcur
      cases hpc; cases hcur
      simp [trueRangesFrom]
    | succ j =>
      simp only [List.getElem?_cons_succ] at hpc hcur
      simpa [trueRangesFrom] using ih c j hpc hcur

theorem trueRanges_get_succ (cs : List Kline) (i : ℕ) (pc cur : Kline)
    (hpc : cs[i]? = some pc) (hcur : cs[i + 1]? = some cur) :
    (trueRanges cs)[i + 1]?
      = some (max (cur.high - cur.low) (max |cur.high - pc.close| |cur.low - pc.close|)) := by
  cases cs with
  | nil => simp at hpc
  | cons c0 rest =>
    simp only [List.getElem?_cons_succ] at hcur
    simpa [trueRanges] using trueRangesFrom_get rest c0 i pc cur hpc hcur

/-- In the seeded branch the `atr` output is an explicit append. -/
theorem atr_eq_append (candles : List Kline) (period : ℤ) (hp : 0 < period)
    (hlen : period ≤ (candles.length : ℤ)) :
    atr candles period
      = List.replicate (period.toNat - 1) none
          ++ some (((trueRanges candles).take period.toNat).sum / (period.toNat : ℚ))
            :: (atrRec period (((trueRanges candles).take period.toNat).sum / (period.toNat : ℚ))
                  ((trueRanges candles).drop period.toNat)).map some := by
  have hne : ¬(candles.length = 0 ∨ period ≤ 0) := by
    rintro (h | h) <;> omega
  have hlt : ¬((candles.length : ℤ) < period) := by omega
  simp only [atr, if_neg hne, if_neg hlt]

/-- C3 (amended): `atr` computes the first bar's true range as `high - low`,
later true ranges with the previous close, seeds with the simple average of
the first `period` true ranges at index `period - 1` (not `period`), with
all earlier entries undefined, and continues with the Wilder recurrence;
the v3 variant `atr_list` is the one that seeds at index `period`, and its
seed averages the pairwise true ranges of bars `1..period`. -/
theorem atr_wilder_contract_amended (candles : List Kline) (period : ℤ)
    (hp : 0 < period) (hlen : period + 1 ≤ (candles.length : ℤ)) :
    (∀ c rest, candles = c :: rest → (trueRanges candles)[0]? = some (c.high - c.low))
    ∧ (∀ (i : ℕ) (pc cur : Kline), candles[i]? = some pc → candles[i + 1]? = some cur →
        (trueRanges candles)[i + 1]?
          = some (max (cur.high - cur.low) (max |cur.high - pc.close| |cur.low - pc.close|)))
    ∧ (∀ i : ℕ, i + 1 < period.toNat → (atr candles period)[i]? = some none)
    ∧ ((atr candles period)[period.toNat - 1]?
        = some (some (((trueRanges candles).take period.toNat).sum / (period.toNat : ℚ))))
    ∧ (∀ i : ℕ, period.toNat ≤ i → i < candles.length →
        ∃ a tr, (atr candles period)[i - 1]? = some (some a)
          ∧ (trueRanges candles)[i]? = some tr
          ∧ (atr candles period)[i]?
              = some (some ((a * ((period : ℚ) - 1) + tr) / (period : ℚ))))
    ∧ (∀ cs : List Candle, period + 1 ≤ (cs.length : ℤ) →
        (∀ j : ℕ, j < period.toNat → (atr_list cs period)[j]? = some none)
        ∧ (atr_list cs period)[period.toNat]?
            = some (some (((pairTrueRanges cs).take period.toNat).sum / (period.toNat : ℚ)))) := by
  have hple : period.toNat + 1 ≤ candles.length := by omega
  have hp1 : 1 ≤ period.toNat := by omega
  have hout := atr_eq_append candles period hp (by omega)
  set p := period.toNat with hpdef
  set trs := trueRanges candles with htrs
  have htrslen : trs.length = candles.length := trueRanges_length candles
  set seed := (trs.take p).sum / (p : ℚ) with hseed
  refine ⟨?_, ?_, ?_, ?_, ?_, ?_⟩
  · rintro c rest rfl
    rw [htrs]
    simp [trueRanges]
  · intro i pc cur hpc hcur
    exact trueRanges_get_succ candles i pc cur hpc hcur
  · intro i hi
    rw [hout, List.getElem?_append_left (by simpa [List.length_replicate] using by omega)]
    exact replicate_get_lt _ (by omega)
  · rw [hout, List.getElem?_append_right (by simp)]
    simp
  · intro i hpi hilen
    have hd : ∀ j : ℕ, (trs.drop p)[j]? = trs[p + j]? := by
      intro j; exact List.getElem?_drop trs p j
    rcases Nat.eq_or_lt_of_le hpi with hip | hip
    · subst hip
      obtain ⟨tr, htr⟩ : ∃ tr, trs[p]? = some tr :=
        ⟨trs.get ⟨p, by omega⟩, List.getElem?_eq_getElem (by omega)⟩
      obtain ⟨ts, hts⟩ : ∃ ts, trs.drop p = tr :: ts := by
        have h0 : (trs.drop p)[0]? = some tr := by rw [hd 0]; simpa using htr
        cases hdp : trs.drop p with
        | nil => rw [hdp] at h0; simp at h0
        | cons a as =>
          rw [hdp] at h0
          simp at h0
          exact ⟨as, by rw [h0]⟩
      refine ⟨seed, tr, ?_, htr, ?_⟩
      · rw [hout, List.getElem?_append_right (by simp)]
        simp
      · rw [hout, List.getElem?_append_right (by simp)]
        have h1 : p - (p - 1) = 1 := by omega
        simp only [List.length_replicate, h1]
        rw [hts]
        simp [atrRec]
    · obtain ⟨tr, htr⟩ : ∃ tr, trs[i]? = some tr :=
        ⟨trs.get ⟨i, by omega⟩, List.getElem?_eq_getElem (by omega)⟩
      have htrdrop : (trs.drop p)[i - p]? = some tr := by
        rw [hd (i - p)]
        have h1 : p + (i - p) = i := by omega
        rw [h1]; exact htr
      have hlenrec : (atrRec period seed (trs.drop p)).length = trs.length - p := by
        rw [atrRec_length, List.length_drop]
      obtain ⟨a, ha⟩ : ∃ a, (atrRec period seed (trs.drop p))[i - p - 1]? = some a :=
        ⟨(atrRec period seed (trs.drop p)).get ⟨i - p - 1, by omega⟩,
          List.getElem?_eq_getElem (by omega)⟩
      have hstep : (atrRec period seed (trs.drop p))[i - p]?
          = some ((a * ((period : ℚ) - 1) + tr) / (period : ℚ)) := by
        have h1 : i - p - 1 + 1 = i - p := by omega
        have h2 := atrRec_get_succ period seed (trs.drop p) (i - p - 1) a tr ha
          (by rw [h1]; exact htrdrop)
        rw [h1] at h2; exact h2
      refine ⟨a, tr, ?_, htr, ?_⟩
      · rw [hout, List.getElem?_append_right (by simp [List.length_replicate]; omega)]
        have h2 : i - 1 - (p - 1) = (i - p - 1) + 1 := by omega
        simp only [List.length_replicate, h2, List.getElem?_cons_succ, List.getElem?_map]
        simp [ha]
      · rw [hout, List.getElem?_append_right (by simp [List.length_replicate]; omega)]
        have h2 : i - (p - 1) = (i - p) + 1 := by omega
        simp only [List.length_replicate, h2, List.getElem?_cons_succ, List.getElem?_map]
        simp [hstep]
  · intro cs hcs
    have hne : ¬(cs.length = 0 ∨ period ≤ 0) := by
      rintro (h | h) <;> omega
    have hlt : ¬((cs.length : ℤ) < period + 1) := by omega
    have hout' : atr_list cs period
        = List.replicate p none
            ++ some (((pairTrueRanges cs).take p).sum / (p : ℚ))
              :: (atrRec period (((pairTrueRanges cs).take p).sum / (p : ℚ))
                    ((pairTrueRanges cs).drop p)).map some := by
      simp only [atr_list, if_neg hne, if_neg hlt]
    constructor
    · intro j hj
      rw [hout', List.getElem?_append_left (by simpa [List.length_replicate] using hj)]
      exact replicate_get_lt _ hj
    · rw [hout', List.getElem?_append_right (by simp)]
      simp

theorem atr_eval_three_bars :
    atr [mkBar 0 9 10 8 9, mkBar 1 10 11 9 10, mkBar 2 11 12 10 11] 2
      = [none, some 2, some 2] := by
  norm_num [atr, trueRanges, trueRangesFrom, atrRec, mkBar, List.take, List.replicate,
    Int.toNat]

theorem atr_seed_index_counterexample :
    (atr [mkBar 0 9 10 8 9, mkBar 1 10 11 9 10, mkBar 2 11 12 10 11] 2)[1]? ≠ some none
    ∧ (atr [mkBar 0 9 10 8 9, mkBar 1 10 11 9 10, mkBar 2 11 12 10 11] 2)[1]?
        = some (some 2) := by
  rw [atr_eval_three_bars]
  exact ⟨by simp, rfl⟩

theorem atr_wilder_contract_amended_witness :
    (atr [mkBar 0 9 10 8 9, mkBar 1 10 11 9 10, mkBar 2 11 12 10 11] 2)[1]?
      = some (some 2) := by
  have h := atr_wilder_contract_amended
    [mkBar 0 9 10 8 9, mkBar 1 10 11 9 10, mkBar 2 11 12 10 11] 2
    (by norm_num) (by norm_num)
  exact h.2.2.2.1.trans (by
    norm_num [trueRanges, trueRangesFrom, mkBar, List.take, Int.toNat])

/-- C2: when one bar's range satisfies both the stop and the target
condition (LONG: `low <= stop` and `high >= target`; SHORT: `high >= stop`
and `low <= target`), the batch simulator `simulate_trade_v4_pro` resolves
that bar as a stop-loss exit, and the live engine's
`_update_active_trade_with_candle` closes the open trade as `"SL"` at the
stop price — never as a take-profit — in all four side/path combinations. -/
theorem sl_wins_double_touch
    (params : EmaPullbackParamsV4) (sl tp : ℚ) (c : SimpleKline) (rest : List SimpleKline)
    (t : Trade) (k : Kline) :
    (c.low ≤ sl → tp ≤ c.high →
      simLoopV4 params Side.LONG sl tp (c :: rest) = some (c.close_time, sl, -1))
    ∧ (sl ≤ c.high → c.low ≤ tp →
      simLoopV4 params Side.SHORT sl tp (c :: rest) = some (c.close_time, sl, -1))
    ∧ (t.is_open = true → t.side = "LONG" → k.low ≤ t.sl_price → t.tp_price ≤ k.high →
      (updateTradeWithCandle t k).result = some "SL"
        ∧ (updateTradeWithCandle t k).close_price = some t.sl_price)
    ∧ (t.is_open = true → t.side = "SHORT" → t.sl_price ≤ k.high → k.low ≤ t.tp_price →
      (updateTradeWithCandle t k).result = some "SL"
        ∧ (updateTradeWithCandle t k).close_price = some t.sl_price) := by
  refine ⟨?_, ?_, ?_, ?_⟩
  · intro h1 _h2
    simp [simLoopV4, h1]
  · intro h1 _h2
    simp [simLoopV4, h1]
  · intro hopen hside h1 _h2
    have hflags : tradeHitFlags t k = (true, false) := by
      simp [tradeHitFlags, hside, h1]
    constructor <;> simp [updateTradeWithCandle, hopen, hflags]
  · intro hopen hside h1 _h2
    have hflags : tradeHitFlags t k = (true, false) := by
      have : ¬(t.side = "LONG") := by rw [hside]; decide
      simp [tradeHitFlags, this, hside, h1]
    constructor <;> simp [updateTradeWithCandle, hopen, hflags]

theorem sl_wins_double_touch_witness :
    simLoopV4 {} Side.LONG 90 110 [c2Bar] = some (1, 90, -1)
    ∧ (updateTradeWithCandle c2TradeLong c2Kline).result = some "SL"
    ∧ (updateTradeWithCandle c2TradeShort c2Kline).result = some "SL" := by
  have h := sl_wins_double_touch {} 90 110 c2Bar [] c2TradeLong c2Kline
  have h' := sl_wins_double_touch {} 110 90 c2Bar [] c2TradeShort c2Kline
  refine ⟨h.1 (by norm_num [c2Bar]) (by norm_num [c2Bar]), ?_, ?_⟩
  · exact (h.2.2.1 rfl rfl (by norm_num [c2TradeLong, c2Kline, mkBar])
      (by norm_num [c2TradeLong, c2Kline, mkBar])).1
  · exact (h'.2.2.2 rfl rfl (by norm_num [c2TradeShort, c2Kline, mkBar])
      (by norm_num [c2TradeShort, c2Kline, mkBar])).1

theorem timeout_exit_rmultiple_counterexample :
    simulate_trade_v4_pro 0 Side.LONG 90 120 [c4Entry, c4Next] {} 1
      = some { index := 0, side := Side.LONG, entry_time := 0, exit_time := 1,
               entry := 100, sl := 90, tp := 120, exit_price := 105,
               result_r := 0, atr := 1 }
    ∧ (0 : ℚ) ≠ (105 - 100) / (100 - 90) := by
  constructor
  · norm_num [simulate_trade_v4_pro, simLoopV4, c4Entry, c4Next]
  · norm_num

theorem getLast?_getElem_last {α : Type} (l : List α) (a : α) (h : l.getLast? = some a) :
    l[l.length - 1]? = some a := by
  have hne : l ≠ [] := by rintro rfl; simp at h
  rw [List.getLast?_eq_getLast_of_ne_nil hne] at h
  injection h with h
  rw [List.getElem?_eq_getElem (by
    cases l with
    | nil => exact absurd rfl hne
    | cons x xs => simp)]
  subst h
  simp [List.getLast_eq_getElem]

/-- C4 (amended): when no subsequent bar touches stop or target before data
runs out, the V2.5 simulator exits at the final bar's close with realized
risk-multiple `(exit - entry)/risk` signed by side (with the `1e-9`
zero-risk guard of the source); the V4 Pro simulator also exits at the
final bar's close but hard-codes realized R to `0`; and the V3 simulator
drops the trade entirely (`None`) instead of closing it at the last bar. -/
theorem timeout_exit_rmultiple_amended
    (sig : EntrySignalV25) (candles : List Kline) (params : EmaPullbackParamsV25)
    (last_c : Kline)
    (i : ℕ) (side : Side) (sl tp : ℚ) (candles4 : List SimpleKline)
    (params4 : EmaPullbackParamsV4) (atrv : ℚ) (e4 l4 : SimpleKline)
    (sig3 : EntrySignalV3) (candles3 : List Candle) (c3 : Candle) (atr3 rr3 : ℚ) :
    (candles.getLast? = some last_c → sig.index < candles.length →
      v25Scan sig.side sig.sl sig.tp params.r_multiple (sig.index + 1)
        (candles.drop (sig.index + 1)) = none →
      (simulate_trade_exit sig candles params).map TradeResultV25.exit_index
          = some (candles.length - 1)
        ∧ (simulate_trade_exit sig candles params).map TradeResultV25.exit_price
          = some last_c.close
        ∧ (simulate_trade_exit sig candles params).map TradeResultV25.result_r
          = some ((if sig.side = "LONG" then last_c.close - sig.entry_price
                   else sig.entry_price - last_c.close)
              / (if |sig.entry_price - sig.sl| = 0 then 1 / 1000000000
                 else |sig.entry_price - sig.sl|)))
    ∧ (candles4[i]? = some e4 → candles4.getLast? = some l4 →
        simLoopV4 params4 side sl tp (candles4.drop (i + 1)) = none →
        simulate_trade_v4_pro i side sl tp candles4 params4 atrv
          = some { index := i, side := side, entry_time := e4.close_time,
                   exit_time := l4.close_time, entry := e4.close, sl := sl, tp := tp,
                   exit_price := l4.close, result_r := 0, atr := atrv })
    ∧ (candles3[sig3.index]? = some c3 → sig3.side = "LONG" →
        ¬(c3.close ≤ min c3.low (c3.close - 1 * atr3)) →
        v3Scan "LONG" (min c3.low (c3.close - 1 * atr3))
          (c3.close + rr3 * (c3.close - min c3.low (c3.close - 1 * atr3))) rr3
          (sig3.index + 1) (candles3.drop (sig3.index + 1)) = none →
        simulate_trade sig3 candles3 atr3 rr3 = none) := by
  refine ⟨?_, ?_, ?_⟩
  · intro hlast hidx hscan
    obtain ⟨ec, hec⟩ : ∃ ec, candles[sig.index]? = some ec :=
      ⟨candles.get ⟨sig.index, hidx⟩, List.getElem?_eq_getElem hidx⟩
    have hxc := getLast?_getElem_last candles last_c hlast
    refine ⟨?_, ?_, ?_⟩ <;>
      · simp only [simulate_trade_exit, hlast, hscan, hec, hxc]
        rfl
  · intro he hl hscan
    simp only [simulate_trade_v4_pro, he, hl, hscan]
  · intro hc hside hne hscan
    simp only [simulate_trade, hc, hside, if_pos, if_neg hne, hscan]

theorem timeout_exit_rmultiple_amended_witness :
    (simulate_trade_exit w25Sig w25Bars {}).map TradeResultV25.result_r = some 1
    ∧ simulate_trade_v4_pro 0 Side.LONG 85 120 [c4Entry, c4Next] {} 1
        = some { index := 0, side := Side.LONG, entry_time := 0, exit_time := 1,
                 entry := 100, sl := 85, tp := 120, exit_price := 105,
                 result_r := 0, atr := 1 }
    ∧ simulate_trade w3Sig w3Bars 1 2 = none := by
  have h := timeout_exit_rmultiple_amended w25Sig w25Bars {} (mkBar 1 105 110 96 105)
    0 Side.LONG 85 120 [c4Entry, c4Next] {} 1 c4Entry c4Next
    w3Sig w3Bars w3C0 1 2
  refine ⟨?_, ?_, ?_⟩
  · have h1 := h.1 (by norm_num [w25Bars]) (by norm_num [w25Sig, w25Bars])
      (by norm_num [v25Scan, w25Sig, w25Bars, mkBar])
    rw [h1.2.2]
    norm_num [w25Sig, mkBar]
  · exact h.2.1 (by norm_num [c4Entry, c4Next]) (by norm_num [c4Entry, c4Next])
      (by norm_num [simLoopV4, c4Entry, c4Next])
  · exact h.2.2 (by norm_num [w3Sig, w3Bars]) rfl
      (by norm_num [w3Bars])
      (by norm_num [v3Scan, w3Sig, w3Bars, w3C0, w3C1])

theorem initRangeAndHistory_frame (env : MarketEnv) (s : TradingEngine) (c : Kline) :
    (initRangeAndHistory env s c).active_trade = s.active_trade
    ∧ (initRangeAndHistory env s c).trade_counter = s.trade_counter
    ∧ (initRangeAndHistory env s c).current_range_day = s.current_range_day
    ∧ (initRangeAndHistory env s c).symbol = s.symbol := by
  unfold initRangeAndHistory
  by_cases h1 : env.nyHour c.open_time < 4
  · simp [h1]
  · simp only [if_neg h1]
    cases henv : env.first_4h_range s.symbol with
    | none => simp
    | some rng =>
      by_cases h2 : (env.candles_5m_history s.symbol).getD [] = []
      · simp [h2]
      · simp [h2]

theorem updateTradeWithCandle_no_hit (t : Trade) (c : Kline) (hopen : t.is_open = true)
    (hnohit : tradeHitFlags t c = (false, false)) :
    updateTradeWithCandle t c = t := by
  have : ¬(t.is_open = false) := by simp [hopen]
  simp [updateTradeWithCandle, this, hnohit]

theorem engineUpdateActive_no_hit (s : TradingEngine) (c : Kline) (t : Trade)
    (ht : s.active_trade = some t) (hopen : t.is_open = true)
    (hnohit : tradeHitFlags t c = (false, false)) :
    engineUpdateActive s c = s := by
  have hcl : t.closed_at = none := by
    simpa [Trade.is_open, Option.isNone_iff_eq_none] using hopen
  simp [engineUpdateActive, ht, hopen, updateTradeWithCandle_no_hit t c hopen hnohit, hcl]

/-- C6: at most one position is open at a time.  The engine stores at most
one open trade, and whenever that trade is still open after the bar's
SL/TP evaluation, `on_new_candle` neither replaces it nor opens a second
one: the stored trade and the trade counter are unchanged, whatever
qualifying signals the new bar produces. -/
theorem one_position_invariant (env : MarketEnv) (s : TradingEngine) (c : Kline) (t : Trade)
    (ht : s.active_trade = some t) (hopen : t.is_open = true)
    (hnohit : tradeHitFlags t c = (false, false)) :
    (on_new_candle env s c).active_trade = some t
    ∧ (on_new_candle env s c).trade_counter = s.trade_counter := by
  by_cases hsym : c.symbol ≠ s.symbol
  · simp [on_new_candle, hsym, ht]
  · by_cases hday : s.current_range_day = none
        ∨ s.current_range_day ≠ some (env.nyDate c.open_time)
    · by_cases hhour : 0 ≤ env.nyHour c.open_time ∧ env.nyHour c.open_time < 4
      · have h1 : (dayResetState s (env.nyDate c.open_time)).active_trade = some t := ht
        simp only [on_new_candle, if_neg hsym, if_pos hday, if_pos hhour,
          engineUpdateActive_no_hit _ c t h1 hopen hnohit]
        exact ⟨h1, rfl⟩
      · have h1 : (dayResetState s (env.nyDate c.open_time)).active_trade = some t := ht
        have h2 := engineUpdateActive_no_hit (dayResetState s (env.nyDate c.open_time)) c t h1
          hopen hnohit
        have h3 : (dayResetState s (env.nyDate c.open_time)).current_range = none := rfl
        have h4 := initRangeAndHistory_frame env (dayResetState s (env.nyDate c.open_time)) c
        simp only [on_new_candle, if_neg hsym, if_pos hday, if_neg hhour, h2, h3]
        exact ⟨h4.1.trans h1, h4.2.1⟩
    · by_cases hhour : 0 ≤ env.nyHour c.open_time ∧ env.nyHour c.open_time < 4
      · simp only [on_new_candle, if_neg hsym, if_neg hday, if_pos hhour,
          engineUpdateActive_no_hit s c t ht hopen hnohit]
        simp [ht]
      · have h2 := engineUpdateActive_no_hit s c t ht hopen hnohit
        simp only [on_new_candle, if_neg hsym, if_neg hday, if_neg hhour, h2]
        cases hrng : s.current_range with
        | none =>
          have h4 := initRangeAndHistory_frame env s c
          exact ⟨h4.1.trans ht, h4.2.1⟩
        | some rng =>
          have hblock : ((some t).map Trade.is_open).getD false = true := by
            simp [hopen]
          simp [ht, hblock, hopen]

theorem one_position_invariant_witness :
    (on_new_candle stdEnv c6State (mkBar 3 105 112 104 112)).active_trade = some c6Trade
    ∧ (on_new_candle stdEnv c6State (mkBar 3 105 112 104 112)).trade_counter = 1 := by
  have h := one_position_invariant stdEnv c6State (mkBar 3 105 112 104 112) c6Trade rfl rfl
    (by norm_num [tradeHitFlags, c6Trade, mkBar]
        decide)
  exact ⟨h.1, h.2⟩

theorem engineUpdateActive_frame (s : TradingEngine) (c : Kline) :
    (engineUpdateActive s c).current_range = s.current_range
    ∧ (engineUpdateActive s c).current_range_day = s.current_range_day
    ∧ (engineUpdateActive s c).candles_from_4h = s.candles_from_4h
    ∧ (engineUpdateActive s c).seen_entry_times = s.seen_entry_times
    ∧ (engineUpdateActive s c).symbol = s.symbol
    ∧ (engineUpdateActive s c).trade_counter = s.trade_counter := by
  unfold engineUpdateActive
  cases s.active_trade with
  | none => simp
  | some t =>
    by_cases h1 : t.is_open
    · by_cases h2 : (updateTradeWithCandle t c).closed_at.isSome <;> simp [h1, h2]
    · simp [h1]

/-- C7: a bar whose trading day differs from the stored episode date makes
`on_new_candle` behave exactly as if run from the day-reset state, whose
definition clears the range, the accumulated history and the consumed-signal
set while keeping the open-position slot; and the position surviving the
reset is still evaluated for stop/target against that very bar (the final
`active_trade` is the one produced by the SL/TP update step). -/
theorem day_rollover_frame (env : MarketEnv) (s : TradingEngine) (c : Kline)
    (hsym : c.symbol = s.symbol)
    (hday : s.current_range_day ≠ some (env.nyDate c.open_time)) :
    on_new_candle env s c = on_new_candle env (dayResetState s (env.nyDate c.open_time)) c
    ∧ (dayResetState s (env.nyDate c.open_time)).active_trade = s.active_trade
    ∧ (dayResetState s (env.nyDate c.open_time)).current_range = none
    ∧ (dayResetState s (env.nyDate c.open_time)).candles_from_4h = []
    ∧ (dayResetState s (env.nyDate c.open_time)).seen_entry_times = ∅
    ∧ (on_new_candle env s c).active_trade
        = (engineUpdateActive (dayResetState s (env.nyDate c.open_time)) c).active_trade := by
  have hsym' : ¬(c.symbol ≠ s.symbol) := by simp [hsym]
  have hsymR : ¬(c.symbol ≠ (dayResetState s (env.nyDate c.open_time)).symbol) := by
    simp [dayResetState, hsym]
  have hcondL : s.current_range_day = none
      ∨ s.current_range_day ≠ some (env.nyDate c.open_time) := Or.inr hday
  have hcondR : ¬((dayResetState s (env.nyDate c.open_time)).current_range_day = none
      ∨ (dayResetState s (env.nyDate c.open_time)).current_range_day
          ≠ some (env.nyDate c.open_time)) := by
    simp [dayResetState]
  have hmain : on_new_candle env s c
      = on_new_candle env (dayResetState s (env.nyDate c.open_time)) c := by
    rw [on_new_candle, on_new_candle, if_neg hsym', if_neg hsymR]
    simp only [if_pos hcondL, if_neg hcondR]
  refine ⟨hmain, rfl, rfl, rfl, rfl, ?_⟩
  rw [hmain]
  set r := dayResetState s (env.nyDate c.open_time) with hr
  rw [on_new_candle, if_neg hsymR]
  simp only [if_neg hcondR]
  by_cases hhour : 0 ≤ env.nyHour c.open_time ∧ env.nyHour c.open_time < 4
  · simp only [if_pos hhour]
  · simp only [if_neg hhour]
    have hrng : (engineUpdateActive r c).current_range = none :=
      (engineUpdateActive_frame r c).1
    cases hmr : (engineUpdateActive r c).current_range with
    | none => exact (initRangeAndHistory_frame env (engineUpdateActive r c) c).1
    | some rng => rw [hmr] at hrng; cases hrng

theorem day_rollover_frame_witness :
    (dayResetState c7State 0).seen_entry_times = ∅
    ∧ (dayResetState c7State 0).candles_from_4h = []
    ∧ (dayResetState c7State 0).current_range = none
    ∧ (dayResetState c7State 0).active_trade = some c7Trade
    ∧ (on_new_candle stdEnv c7State (mkBar 10 105 106 104 105)).active_trade
        = (engineUpdateActive (dayResetState c7State 0) (mkBar 10 105 106 104 105)).active_trade := by
  have h := day_rollover_frame stdEnv c7State (mkBar 10 105 106 104 105) rfl (by
    simp [c7State, stdEnv])
  exact ⟨h.2.2.2.2.1, h.2.2.2.1, h.2.2.1, h.2.1, h.2.2.2.2.2⟩

theorem detectAppend_oob (range_4h : Range4HNY) (all : List Kline) (i : ℕ) (c : Kline)
    (k : DetCore) (h : all[i + 1]? = none) :
    detectAppend range_4h all i c k = [] := by
  rcases k with ⟨st, ex, idx⟩
  cases st <;> cases ex <;> cases idx <;> simp [detectAppend, h]

theorem detectLoop_append (range_4h : Range4HNY) (all : List Kline) (l1 l2 : List Kline)
    (i : ℕ) (st : DetCore × List EntrySignal) :
    detectLoop range_4h all (l1 ++ l2) i st
      = detectLoop range_4h all l2 (i + l1.length) (detectLoop range_4h all l1 i st) := by
  induction l1 generalizing i st with
  | nil => simp [detectLoop]
  | cons c rest ih =>
    simp only [List.cons_append, detectLoop, List.length_cons, List.append_eq]
    rw [ih (i + 1) (detectStep range_4h all i c st)]
    congr 1
    omega

theorem detectLoop_acc (range_4h : Range4HNY) (all : List Kline) (l : List Kline)
    (i : ℕ) (k : DetCore) (acc : List EntrySignal) :
    detectLoop range_4h all l i (k, acc)
      = ((detectLoop range_4h all l i (k, [])).1,
         acc ++ (detectLoop range_4h all l i (k, [])).2) := by
  induction l generalizing i k acc with
  | nil => simp [detectLoop]
  | cons c rest ih =>
    simp only [detectLoop, detectStep]
    rw [ih (i + 1) _ (acc ++ detectAppend range_4h all i c k),
      ih (i + 1) _ ([] ++ detectAppend range_4h all i c k)]
    simp

theorem detectAppend_entry_time (range_4h : Range4HNY) (all : List Kline) (i : ℕ)
    (c : Kline) (k : DetCore) (σ : EntrySignal) (hσ : σ ∈ detectAppend range_4h all i c k) :
    ∃ nxt, all[i + 1]? = some nxt ∧ σ.entry_time = nxt.open_time := by
  rcases k with ⟨st, ex, idx⟩
  cases st <;> cases ex <;> cases idx <;> simp only [detectAppend] at hσ
  case OUTSIDE_ABOVE.some.some e ei =>
    split at hσ
    · cases hnx : all[i + 1]? with
      | none => simp only [hnx] at hσ; simp at hσ
      | some nxt =>
        simp only [hnx] at hσ
        refine ⟨nxt, rfl, ?_⟩
        split at hσ
        · rcases List.mem_singleton.mp hσ with rfl
          rfl
        · simp at hσ
    · simp at hσ
  case OUTSIDE_BELOW.some.some e ei =>
    split at hσ
    · cases hnx : all[i + 1]? with
      | none => simp only [hnx] at hσ; simp at hσ
      | some nxt =>
        simp only [hnx] at hσ
        refine ⟨nxt, rfl, ?_⟩
        split at hσ
        · rcases List.mem_singleton.mp hσ with rfl
          rfl
        · simp at hσ
    · simp at hσ
  all_goals simp at hσ

theorem segment_agree (a b : List Kline) (s n : ℕ)
    (h : ∀ j : ℕ, j < s + n → a[j]? = b[j]?) :
    (a.drop s).take n = (b.drop s).take n := by
  apply List.ext_getElem?
  intro j
  by_cases hj : j < n
  · rw [List.getElem?_take_of_lt hj, List.getElem?_take_of_lt hj,
      List.getElem?_drop, List.getElem?_drop]
    exact h (s + j) (by omega)
  · have h1 : ((a.drop s).take n).length ≤ j := by
      have := List.length_take n (a.drop s)
      omega
    have h2 : ((b.drop s).take n).length ≤ j := by
      have := List.length_take n (b.drop s)
      omega
    rw [List.getElem?_eq_none h1, List.getElem?_eq_none h2]

theorem detectAppend_agree (range_4h : Range4HNY) (a b : List Kline) (i : ℕ) (c : Kline)
    (k : DetCore) (h : ∀ j : ℕ, j ≤ i + 1 → a[j]? = b[j]?) :
    detectAppend range_4h a i c k = detectAppend range_4h b i c k := by
  rcases k with ⟨st, ex, idx⟩
  cases st <;> cases ex <;> cases idx <;> simp only [detectAppend]
  case OUTSIDE_ABOVE.some.some e ei =>
    split
    · have hseg : (a.drop ei).take (i + 1 - ei) = (b.drop ei).take (i + 1 - ei) := by
        by_cases hei : ei ≤ i + 1
        · exact segment_agree a b ei (i + 1 - ei) (fun j hj => h j (by omega))
        · have h0 : i + 1 - ei = 0 := by omega
          rw [h0]
          simp
      rw [h (i + 1) (le_refl _), hseg]
    · rfl
  case OUTSIDE_BELOW.some.some e ei =>
    split
    · have hseg : (a.drop ei).take (i + 1 - ei) = (b.drop ei).take (i + 1 - ei) := by
        by_cases hei : ei ≤ i + 1
        · exact segment_agree a b ei (i + 1 - ei) (fun j hj => h j (by omega))
        · have h0 : i + 1 - ei = 0 := by omega
          rw [h0]
          simp
      rw [h (i + 1) (le_refl _), hseg]
    · rfl

theorem detectLoop_agree (range_4h : Range4HNY) (a b : List Kline) :
    ∀ (l : List Kline) (i : ℕ) (st : DetCore × List EntrySignal),
      (∀ j : ℕ, j ≤ i + l.length → a[j]? = b[j]?) →
      detectLoop range_4h a l i st = detectLoop range_4h b l i st := by
  intro l
  induction l with
  | nil => intro i st _; rfl
  | cons c rest ih =>
    intro i st h
    simp only [detectLoop, detectStep]
    rw [detectAppend_agree range_4h a b i c st.1
      (fun j hj => h j (by simp [List.length_cons]; omega))]
    exact ih (i + 1) _ (fun j hj => h j (by simp [List.length_cons]; omega))

theorem sigsUpTo_zero (range_4h : Range4HNY) (cs : List Kline) :
    sigsUpTo range_4h cs 0 = [] := rfl

theorem sigsUpTo_succ (range_4h : Range4HNY) (cs : List Kline) (m : ℕ) (c : Kline)
    (hc : cs[m]? = some c) :
    sigsUpTo range_4h cs (m + 1)
      = sigsUpTo range_4h cs m
          ++ detectAppend range_4h cs m c (coreUpTo range_4h cs m)
    ∧ coreUpTo range_4h cs (m + 1)
      = detectCore range_4h m c (coreUpTo range_4h cs m) := by
  have hm : m < cs.length := by
    by_contra hcon
    rw [List.getElem?_eq_none (by omega)] at hc
    cases hc
  have htake : cs.take (m + 1) = cs.take m ++ [c] := by
    rw [List.take_succ, hc]
    rfl
  have hlen : (cs.take m).length = m := by
    rw [List.length_take]
    omega
  have hsplit := detectLoop_append range_4h cs (cs.take m) [c] 0 (initCore, [])
  constructor
  · unfold sigsUpTo
    rw [htake, hsplit, hlen]
    simp only [Nat.zero_add, detectLoop, detectStep]
    rfl
  · unfold coreUpTo
    rw [htake, hsplit, hlen]
    simp only [Nat.zero_add, detectLoop, detectStep]

theorem detect_eq_sigsUpTo (range_4h : Range4HNY) (cs : List Kline) :
    detect_entry_signals range_4h cs = sigsUpTo range_4h cs cs.length := by
  unfold detect_entry_signals sigsUpTo
  rw [List.take_length]

theorem detect_take_eq_sigsUpTo (range_4h : Range4HNY) (cs : List Kline) (m : ℕ)
    (hm1 : 1 ≤ m) (hm2 : m ≤ cs.length) :
    detect_entry_signals range_4h (cs.take m) = sigsUpTo range_4h cs (m - 1) := by
  obtain ⟨n, rfl⟩ : ∃ n, m = n + 1 := ⟨m - 1, by omega⟩
  have hn : n < cs.length := by omega
  obtain ⟨c, hc⟩ : ∃ c, cs[n]? = some c :=
    ⟨cs.get ⟨n, hn⟩, List.getElem?_eq_getElem hn⟩
  have htake : cs.take (n + 1) = cs.take n ++ [c] := by
    rw [List.take_succ, hc]
    rfl
  have hlen : (cs.take n).length = n := by
    rw [List.length_take]
    omega
  have htaketake : (cs.take (n + 1)).take n = cs.take n := by
    rw [List.take_take]
    congr 1
    omega
  unfold detect_entry_signals
  rw [htake]
  rw [detectLoop_append range_4h (cs.take n ++ [c]) (cs.take n) [c] 0 (initCore, [])]
  have hagree : detectLoop range_4h (cs.take n ++ [c]) (cs.take n) 0 (initCore, [])
      = detectLoop range_4h cs (cs.take n) 0 (initCore, []) := by
    apply detectLoop_agree
    intro j hj
    rw [hlen] at hj
    rcases Nat.lt_or_ge j n with hjn | hjn
    · rw [List.getElem?_append_left (by omega), List.getElem?_take_of_lt hjn]
    · have hjeq : j = n := by omega
      subst hjeq
      rw [List.getElem?_append_right (by omega), hlen]
      simp [hc]
  rw [hagree, hlen]
  have hoob : (cs.take n ++ [c])[n + 1]? = none := by
    apply List.getElem?_eq_none
    rw [List.length_append, hlen]
    simp
  simp only [Nat.zero_add, detectLoop, detectStep]
  rw [detectAppend_oob range_4h (cs.take n ++ [c]) n c _ hoob]
  simp [sigsUpTo]

/-- Symbolic one-step unfolding of `on_new_candle` for an in-day bar at or
after the qualifying hour with the range already initialized: only the
position update, the history append and the signal selection remain. -/
theorem on_new_candle_unfold (env : MarketEnv) (s : TradingEngine) (c : Kline)
    (rng : Range4HNY) (hsym : c.symbol = s.symbol)
    (hday : s.current_range_day = some (env.nyDate c.open_time))
    (hhour : 4 ≤ env.nyHour c.open_time)
    (hrng : (engineUpdateActive s c).current_range = some rng) :
    on_new_candle env s c
      = (let s2 := engineUpdateActive s c
         let s3 := { s2 with candles_from_4h := s2.candles_from_4h ++ [c] }
         if (s3.active_trade.map Trade.is_open).getD false then s3
         else
           let new_signals := (detect_entry_signals rng s3.candles_from_4h).filter
             (fun sg => decide (sg.entry_time = c.open_time
               ∧ sg.entry_time ∉ s3.seen_entry_times))
           if hns : new_signals = [] then s3
           else
             openTradeFromSignal
               { s3 with seen_entry_times := s3.seen_entry_times
                   ∪ (new_signals.map (·.entry_time)).toFinset }
               (new_signals.getLast hns)) := by
  have h1 : ¬(c.symbol ≠ s.symbol) := by simp [hsym]
  have h2 : ¬(s.current_range_day = none
      ∨ s.current_range_day ≠ some (env.nyDate c.open_time)) := by simp [hday]
  have h3 : ¬(0 ≤ env.nyHour c.open_time ∧ env.nyHour c.open_time < 4) := by omega
  simp only [on_new_candle, if_neg h1, if_neg h2, if_neg h3, hrng]

theorem cxdet1 : detect_entry_signals testRange [cxb0] = [] := by
  norm_num [detect_entry_signals, detectLoop, detectStep, detectCore, detectAppend,
    detectFall, initCore, crossesLevel, is_inside, maxHigh, minLow, exitUpEvent,
    exitDownEvent, reentryAboveEvent, reentryBelowEvent, mkBar, testRange, cxb0]

theorem cxdet2 : detect_entry_signals testRange [cxb0, cxb1] = [] := by
  norm_num [detect_entry_signals, detectLoop, detectStep, detectCore, detectAppend,
    detectFall, initCore, crossesLevel, is_inside, maxHigh, minLow, exitUpEvent,
    exitDownEvent, reentryAboveEvent, reentryBelowEvent, mkBar, testRange, cxb0, cxb1]

theorem cxdet3 : detect_entry_signals testRange [cxb0, cxb1, cxb2] = [sigma1] := by
  norm_num [detect_entry_signals, detectLoop, detectStep, detectCore, detectAppend,
    detectFall, initCore, crossesLevel, is_inside, maxHigh, minLow, exitUpEvent,
    exitDownEvent, reentryAboveEvent, reentryBelowEvent, mkBar, testRange, cxb0, cxb1,
    cxb2, sigma1]

theorem cxdet6 : detect_entry_signals testRange cexBars = [sigma1, sigma2] := by
  norm_num [detect_entry_signals, detectLoop, detectStep, detectCore, detectAppend,
    detectFall, initCore, crossesLevel, is_inside, maxHigh, minLow, exitUpEvent,
    exitDownEvent, reentryAboveEvent, reentryBelowEvent, mkBar, testRange, cexBars,
    cxb0, cxb1, cxb2, cxb3, cxb4, cxb5, sigma1, sigma2]

theorem cxstep1 : on_new_candle stdEnv c1Start cxb0 = e1 := by
  rw [on_new_candle_unfold stdEnv c1Start cxb0 testRange rfl rfl (by norm_num [stdEnv]) rfl]
  have hupd : engineUpdateActive c1Start cxb0 = c1Start := rfl
  simp only [hupd]
  simp only [c1Start]
  norm_num [cxdet1, e1]

theorem cxstep2 : on_new_candle stdEnv e1 cxb1 = e2 := by
  rw [on_new_candle_unfold stdEnv e1 cxb1 testRange rfl rfl (by norm_num [stdEnv]) rfl]
  have hupd : engineUpdateActive e1 cxb1 = e1 := rfl
  simp only [hupd]
  simp only [e1]
  norm_num [cxdet2, e2]

theorem cxstep3 : on_new_candle stdEnv e2 cxb2 = e3 := by
  rw [on_new_candle_unfold stdEnv e2 cxb2 testRange rfl rfl (by norm_num [stdEnv]) rfl]
  have hupd : engineUpdateActive e2 cxb2 = e2 := rfl
  have hct : cxb2.open_time = 2 := rfl
  have hsig : sigma1.entry_time = 2 := rfl
  simp only [hupd]
  simp only [e2]
  norm_num [cxdet3, e3, openTradeFromSignal, hct, hsig, tr1]
  norm_num [sigma1]

theorem cxstep4 : on_new_candle stdEnv e3 cxb3 = e4 := by
  rw [on_new_candle_unfold stdEnv e3 cxb3 testRange rfl rfl (by norm_num [stdEnv]) rfl]
  have hupd : engineUpdateActive e3 cxb3 = e3 := rfl
  simp only [hupd]
  simp only [e3]
  norm_num [e4, tr1, Trade.is_open]

theorem cxstep5 : on_new_candle stdEnv e4 cxb4 = e5 := by
  rw [on_new_candle_unfold stdEnv e4 cxb4 testRange rfl rfl (by norm_num [stdEnv]) rfl]
  have hupd : engineUpdateActive e4 cxb4 = e4 := rfl
  simp only [hupd]
  simp only [e4]
  norm_num [e5, tr1, Trade.is_open]

theorem cxstep6 : on_new_candle stdEnv e5 cxb5 = e6 := by
  rw [on_new_candle_unfold stdEnv e5 cxb5 testRange rfl rfl (by norm_num [stdEnv]) rfl]
  have hupd : engineUpdateActive e5 cxb5 = e5 := rfl
  simp only [hupd]
  simp only [e5]
  norm_num [e6, tr1, Trade.is_open]

theorem batch_live_parity_counterexample :
    (detect_entry_signals testRange cexBars).length = 2
    ∧ (feedCandles stdEnv c1Start cexBars).trade_counter = 1
    ∧ sigma2.entry_time ∉ (feedCandles stdEnv c1Start cexBars).seen_entry_times
    ∧ (feedCandles stdEnv c1Start cexBars).seen_entry_times
        ≠ ((detect_entry_signals testRange cexBars).map (fun sg => sg.entry_time)).toFinset := by
  have hfeed : feedCandles stdEnv c1Start cexBars = e6 := by
    simp only [feedCandles, cexBars, List.foldl, cxstep1, cxstep2, cxstep3, cxstep4,
      cxstep5, cxstep6]
  rw [hfeed, cxdet6]
  refine ⟨rfl, rfl, ?_, ?_⟩
  · decide
  · decide

theorem detectFall_exit (range_4h : Range4HNY) (c : Kline) (k : DetCore) :
    ((detectFall range_4h c k).current_exit = k.current_exit
      ∧ (detectFall range_4h c k).exit_index = k.exit_index)
    ∨ ((detectFall range_4h c k).current_exit = none
      ∧ (detectFall range_4h c k).exit_index = none) := by
  unfold detectFall
  split_ifs <;> simp

theorem detectCore_preserves_CoreOk (range_4h : Range4HNY) (all : List Kline) (i : ℕ)
    (c : Kline) (k : DetCore) (hk : CoreOk all i k) (hc : all[i]? = some c) :
    CoreOk all (i + 1) (detectCore range_4h i c k) := by
  have hfall : ∀ k' : DetCore, CoreOk all i k' → CoreOk all (i + 1) (detectFall range_4h c k') := by
    intro k' hk' ei hei
    rcases detectFall_exit range_4h c k' with ⟨h1, h2⟩ | ⟨h1, h2⟩
    · rw [h2] at hei
      obtain ⟨hle, e, he, hcand⟩ := hk' ei hei
      exact ⟨by omega, e, by rw [h1]; exact he, hcand⟩
    · rw [h2] at hei
      cases hei
  rcases k with ⟨st, ex, idx⟩
  cases st with
  | INSIDE =>
    simp only [detectCore]
    split_ifs with h1 h2
    · intro ei hei
      simp only at hei
      cases hei
      exact ⟨by omega, exitUpEvent range_4h c, rfl, by simpa using hc⟩
    · intro ei hei
      simp only at hei
      cases hei
      exact ⟨by omega, exitDownEvent range_4h c, rfl, by simpa using hc⟩
    · exact hfall _ hk
  | OUTSIDE_ABOVE =>
    simp only [detectCore]
    cases ex with
    | none => exact hfall _ hk
    | some e =>
      cases idx with
      | none => exact hfall _ hk
      | some ei0 =>
        dsimp only
        split_ifs with h1
        · intro ei hei
          simp only at hei
          cases hei
        · exact hfall _ hk
  | OUTSIDE_BELOW =>
    simp only [detectCore]
    cases ex with
    | none => exact hfall _ hk
    | some e =>
      cases idx with
      | none => exact hfall _ hk
      | some ei0 =>
        dsimp only
        split_ifs with h1
        · intro ei hei
          simp only at hei
          cases hei
        · exact hfall _ hk

theorem detectAppend_shape (range_4h : Range4HNY) (all : List Kline) (i : ℕ) (c : Kline)
    (k : DetCore) (hk : CoreOk all i k) (hc : all[i]? = some c) (σ : EntrySignal)
    (hσ : σ ∈ detectAppend range_4h all i c k) :
    RangeSignalShape range_4h all σ := by
  rcases k with ⟨st, ex, idx⟩
  cases st <;> cases ex <;> cases idx <;> simp only [detectAppend] at hσ
  case OUTSIDE_ABOVE.some.some e ei =>
    split at hσ
    · cases hnx : all[i + 1]? with
      | none => simp only [hnx] at hσ; simp at hσ
      | some nxt =>
        simp only [hnx] at hσ
        split at hσ
        · rcases List.mem_singleton.mp hσ with rfl
          obtain ⟨hle, e', he', hcand⟩ := hk ei rfl
          obtain rfl : e' = e := by
            simp only at he'
            cases he'
            rfl
          rename_i hrisk hguard
          exact ⟨ei, i, nxt, hle, hnx, hcand, by simpa [reentryAboveEvent] using hc,
            rfl, rfl, Or.inl ⟨rfl, rfl, hguard.1, rfl, rfl, hrisk, rfl⟩⟩
        · simp at hσ
    · simp at hσ
  case OUTSIDE_BELOW.some.some e ei =>
    split at hσ
    · cases hnx : all[i + 1]? with
      | none => simp only [hnx] at hσ; simp at hσ
      | some nxt =>
        simp only [hnx] at hσ
        split at hσ
        · rcases List.mem_singleton.mp hσ with rfl
          obtain ⟨hle, e', he', hcand⟩ := hk ei rfl
          obtain rfl : e' = e := by
            simp only at he'
            cases he'
            rfl
          rename_i hrisk hguard
          exact ⟨ei, i, nxt, hle, hnx, hcand, by simpa [reentryBelowEvent] using hc,
            rfl, rfl, Or.inr ⟨rfl, rfl, hguard.1, rfl, rfl, hrisk, rfl⟩⟩
        · simp at hσ
    · simp at hσ
  all_goals simp at hσ

theorem detectLoop_shape (range_4h : Range4HNY) (all : List Kline) :
    ∀ (l : List Kline) (i : ℕ) (k : DetCore) (acc : List EntrySignal),
      all.drop i = l → CoreOk all i k →
      (∀ σ ∈ acc, RangeSignalShape range_4h all σ) →
      ∀ σ ∈ (detectLoop range_4h all l i (k, acc)).2, RangeSignalShape range_4h all σ := by
  intro l
  induction l with
  | nil => intro i k acc _ _ hacc σ hσ; exact hacc σ hσ
  | cons c rest ih =>
    intro i k acc hdrop hk hacc σ hσ
    have hc : all[i]? = some c := by
      have h0 : (all.drop i)[0]? = some c := by rw [hdrop]; simp
      rw [List.getElem?_drop] at h0
      simpa using h0
    have hdrop' : all.drop (i + 1) = rest := by
      have h1 := congrArg List.tail hdrop
      simpa [List.tail_drop] using h1
    simp only [detectLoop, detectStep] at hσ
    exact ih (i + 1) _ _ hdrop' (detectCore_preserves_CoreOk range_4h all i c k hk hc)
      (by
        intro τ hτ
        rcases List.mem_append.mp hτ with h | h
        · exact hacc τ h
        · exact detectAppend_shape range_4h all i c k hk hc τ h) σ hσ

/-- C8: every signal `detect_entry_signals` emits for a completed
exit-up/re-entry cycle is a SHORT whose entry price is the open of the bar
after the re-entry bar, whose stop is the maximum high over the bars from
the exit bar through the re-entry bar inclusive, and whose target is
`entry - 2 * (stop - entry)`; the exit-down cycle mirrors this as a LONG
with the minimum low and `entry + 2 * (entry - stop)`. -/
theorem range_reentry_signal_shape (range_4h : Range4HNY) (cs : List Kline)
    (σ : EntrySignal) (hσ : σ ∈ detect_entry_signals range_4h cs) :
    RangeSignalShape range_4h cs σ := by
  apply detectLoop_shape range_4h cs cs 0 initCore [] rfl _ _ σ hσ
  · intro ei hei
    cases hei
  · intro τ hτ
    cases hτ

theorem range_reentry_signal_shape_witness :
    RangeSignalShape testRange [cxb0, cxb1, cxb2] sigma1 := by
  apply range_reentry_signal_shape testRange [cxb0, cxb1, cxb2] sigma1
  rw [cxdet3]
  exact List.mem_singleton.mpr rfl

/-- C10: an exit/re-entry cycle that completes on the last bar of the input
yields no signal in that call: the loop step at the final index (where no
lookahead bar exists) appends nothing to the signal accumulator, whatever
the detector state; concretely, a two-bar history whose second bar is the
re-entry bar produces an empty signal list. -/
theorem no_entry_for_cycle_on_last_bar (range_4h : Range4HNY) (cs : List Kline)
    (c : Kline) (st : DetCore × List EntrySignal) :
    (detectStep range_4h cs (cs.length - 1) c st).2 = st.2
    ∧ detect_entry_signals testRange [cxb0, cxb1] = [] := by
  constructor
  · have hoob : cs[(cs.length - 1) + 1]? = none :=
      List.getElem?_eq_none (by omega)
    simp [detectStep, detectAppend_oob range_4h cs (cs.length - 1) c st.1 hoob]
  · exact cxdet2

theorem pbUpBody_signals (params : EmaPullbackParams) (i : ℕ) (c : CandleWithInd)
    (st : PBState) :
    (pbUpBody params i c st).signals = st.signals
    ∨ ∃ σ, validSl σ ∧ (pbUpBody params i c st).signals = st.signals ++ [σ] := by
  unfold pbUpBody
  dsimp only
  split_ifs <;> simp_all [reset_pullback, validSl]

theorem pbDownBody_signals (params : EmaPullbackParams) (i : ℕ) (c : CandleWithInd)
    (st : PBState) :
    (pbDownBody params i c st).signals = st.signals
    ∨ ∃ σ, validSl σ ∧ (pbDownBody params i c st).signals = st.signals ++ [σ] := by
  unfold pbDownBody
  dsimp only
  split_ifs <;> simp_all [reset_pullback, validSl]

theorem pbStep_signals (params : EmaPullbackParams) (i : ℕ) (c : CandleWithInd)
    (st : PBState) :
    (pbStep params i c st).signals = st.signals
    ∨ ∃ σ, validSl σ ∧ (pbStep params i c st).signals = st.signals ++ [σ] := by
  unfold pbStep pbTrendBody
  dsimp only
  split_ifs with h1 h2 h3 h4 h5 h6 h7
  · left; simp [reset_pullback]
  · left; simp [reset_pullback]
  · left; rfl
  · left; rfl
  · left; rfl
  · left; rfl
  · left; rfl
  · exact pbUpBody_signals params i c _
  · exact pbDownBody_signals params i c _

theorem pbLoop_valid (params : EmaPullbackParams) (cs : List CandleWithInd)
    (j : ℕ) (st : PBState) (hst : ∀ σ ∈ st.signals, validSl σ) :
    ∀ σ ∈ (pbLoop params j cs st).signals, validSl σ := by
  induction cs generalizing j st with
  | nil => simpa [pbLoop] using hst
  | cons c rest ih =>
    refine ih (j + 1) (pbStep params j c st) ?_
    rcases pbStep_signals params j c st with h | ⟨σ, hσ, h⟩
    · intro τ hτ; exact hst τ (h ▸ hτ)
    · intro τ hτ
      rw [h, List.mem_append, List.mem_singleton] at hτ
      rcases hτ with hτ | rfl
      · exact hst τ hτ
      · exact hσ

theorem c9_eval :
    find_ema_pullback_entries_v2 [c9b0, c9b1, c9b2] c9Params = [c9Sig] := by
  have h0 : pbStep c9Params 0 c9b0 {} = pbSt1 := by
    norm_num [pbStep, pbTrendBody, pbUpBody, pbDownBody, detect_trend,
      reset_pullback, swingMax, swingMin, c9Params, c9b0, mkCW, pbSt1, abs_of_nonneg] <;> simp
  have h1 : pbStep c9Params 1 c9b1 pbSt1 = pbSt2 := by
    norm_num [pbStep, pbTrendBody, pbUpBody, pbDownBody, detect_trend,
      reset_pullback, swingMax, swingMin, c9Params, c9b1, mkCW, pbSt1, pbSt2, abs_of_nonneg] <;> simp
  have h2 : pbStep c9Params 2 c9b2 pbSt2 = pbSt3 := by
    norm_num [pbStep, pbTrendBody, pbUpBody, pbDownBody, detect_trend,
      reset_pullback, swingMax, swingMin, c9Params, c9b2, mkCW, pbSt2, pbSt3, c9Sig, abs_of_nonneg] <;> simp
  show (pbLoop c9Params 0 [c9b0, c9b1, c9b2] {}).signals = [c9Sig]
  simp only [pbLoop]
  rw [h0, h1, h2]
  rfl

theorem c9_eval_deg :
    find_ema_pullback_entries_v2 [c9b0, c9b1, c9b2, c9b3, c9b4] c9DegParams
      = [c9DegSig] := by
  have h0 : pbStep c9DegParams 0 c9b0 {} = pbSt1 := by
    norm_num [pbStep, pbTrendBody, pbUpBody, pbDownBody, detect_trend,
      reset_pullback, swingMax, swingMin, c9DegParams, c9Params, c9b0, mkCW, pbSt1, abs_of_nonneg] <;> simp
  have h1 : pbStep c9DegParams 1 c9b1 pbSt1 = pbSt2 := by
    norm_num [pbStep, pbTrendBody, pbUpBody, pbDownBody, detect_trend,
      reset_pullback, swingMax, swingMin, c9DegParams, c9Params, c9b1, mkCW,
      pbSt1, pbSt2, abs_of_nonneg] <;> simp
  have h2 : pbStep c9DegParams 2 c9b2 pbSt2 = pbDegSt3 := by
    norm_num [pbStep, pbTrendBody, pbUpBody, pbDownBody, detect_trend,
      reset_pullback, swingMax, swingMin, c9DegParams, c9Params, c9b2, mkCW,
      pbSt2, pbDegSt3, abs_of_nonneg] <;> simp
  have h3 : pbStep c9DegParams 3 c9b3 pbDegSt3 = pbDegSt4 := by
    norm_num [pbStep, pbTrendBody, pbUpBody, pbDownBody, detect_trend,
      reset_pullback, swingMax, swingMin, c9DegParams, c9Params, c9b3, mkCW,
      pbDegSt3, pbDegSt4, abs_of_nonneg] <;> simp
  have h4 : pbStep c9DegParams 4 c9b4 pbDegSt4 = pbDegSt5 := by
    norm_num [pbStep, pbTrendBody, pbUpBody, pbDownBody, detect_trend,
      reset_pullback, swingMax, swingMin, c9DegParams, c9Params, c9b4, mkCW,
      pbDegSt4, pbDegSt5, c9DegSig, abs_of_nonneg] <;> simp
  show (pbLoop c9DegParams 0 [c9b0, c9b1, c9b2, c9b3, c9b4] {}).signals = [c9DegSig]
  simp only [pbLoop]
  rw [h0, h1, h2, h3, h4]
  rfl

/-- C9: every entry signal the v2 EMA-pullback generator emits has its
buffered stop strictly on the losing side of the entry price (LONG: stop
below entry; SHORT: stop above entry); each loop step either leaves the
signal list unchanged -- in particular a candidate whose buffered stop
falls on the wrong side of (or equal to) the entry is dropped at creation
with no signal and no error, the step being a total function -- or appends
exactly one signal with a correctly-sided stop.  Concretely, a three-bar
uptrend pullback emits one LONG signal with stop 39/5 below entry 21/2,
and under a negative ATR-buffer multiple the same entry bar is discarded
at creation while scanning continues over the remaining bars and emits the
later index-4 signal. -/
theorem pullback_stop_side_guard (candles : List CandleWithInd)
    (params : EmaPullbackParams) :
    (∀ σ ∈ find_ema_pullback_entries_v2 candles params,
        (σ.side = Side.LONG → σ.sl < σ.entry_price)
        ∧ (σ.side = Side.SHORT → σ.entry_price < σ.sl))
    ∧ (∀ (i : ℕ) (c : CandleWithInd) (st : PBState),
        (pbStep params i c st).signals = st.signals
        ∨ ∃ σ, ((σ.side = Side.LONG → σ.sl < σ.entry_price)
            ∧ (σ.side = Side.SHORT → σ.entry_price < σ.sl))
          ∧ (pbStep params i c st).signals = st.signals ++ [σ])
    ∧ find_ema_pullback_entries_v2 [c9b0, c9b1, c9b2] c9Params = [c9Sig]
    ∧ find_ema_pullback_entries_v2 [c9b0, c9b1, c9b2, c9b3, c9b4] c9DegParams
        = [c9DegSig] := by
  refine ⟨fun σ hσ => pbLoop_valid params candles 0 {} (by simp) σ hσ,
    fun i c st => pbStep_signals params i c st, c9_eval, c9_eval_deg⟩

theorem mem_entryTimes {x : ℤ} {l : List EntrySignal} :
    x ∈ entryTimes l ↔ ∃ σ ∈ l, σ.entry_time = x := by
  simp [entryTimes]

theorem entryTimes_append (l l' : List EntrySignal) :
    entryTimes (l ++ l') = entryTimes l ∪ entryTimes l' := by
  simp [entryTimes]

theorem detectAppend_cases (range_4h : Range4HNY) (all : List Kline) (i : ℕ) (c : Kline)
    (k : DetCore) :
    detectAppend range_4h all i c k = []
    ∨ ∃ σ, detectAppend range_4h all i c k = [σ] := by
  rcases k with ⟨st, ex, idx⟩
  cases st <;> cases ex <;> cases idx <;> simp only [detectAppend]
  case OUTSIDE_ABOVE.some.some e ei =>
    split
    · cases hnx : all[i + 1]? with
      | none => simp
      | some nxt =>
        simp only []
        split
        · right; exact ⟨_, rfl⟩
        · left; rfl
    · left; rfl
  case OUTSIDE_BELOW.some.some e ei =>
    split
    · cases hnx : all[i + 1]? with
      | none => simp
      | some nxt =>
        simp only []
        split
        · right; exact ⟨_, rfl⟩
        · left; rfl
    · left; rfl
  all_goals exact Or.inl (by trivial)

theorem sigsUpTo_entry_bound (range_4h : Range4HNY) (cs : List Kline) :
    ∀ (m : ℕ) (σ : EntrySignal), σ ∈ sigsUpTo range_4h cs m →
      ∃ (j : ℕ) (b : Kline), 1 ≤ j ∧ j ≤ m ∧ cs[j]? = some b
        ∧ σ.entry_time = b.open_time := by
  intro m
  induction m with
  | zero => intro σ hσ; simp [sigsUpTo, detectLoop] at hσ
  | succ n ih =>
    intro σ hσ
    cases hc : cs[n]? with
    | none =>
      have hlen : cs.length ≤ n := by
        by_contra hcon
        rw [List.getElem?_eq_getElem (by omega)] at hc
        cases hc
      have htk : cs.take (n + 1) = cs.take n := by
        rw [List.take_of_length_le (by omega), List.take_of_length_le (by omega)]
      have hs : sigsUpTo range_4h cs (n + 1) = sigsUpTo range_4h cs n := by
        unfold sigsUpTo
        rw [htk]
      rw [hs] at hσ
      obtain ⟨j, b, h1, h2, h3, h4⟩ := ih σ hσ
      exact ⟨j, b, h1, by omega, h3, h4⟩
    | some c =>
      rw [(sigsUpTo_succ range_4h cs n c hc).1, List.mem_append] at hσ
      rcases hσ with hσ | hσ
      · obtain ⟨j, b, h1, h2, h3, h4⟩ := ih σ hσ
        exact ⟨j, b, h1, by omega, h3, h4⟩
      · obtain ⟨nxt, hnx, het⟩ := detectAppend_entry_time range_4h cs n c _ σ hσ
        exact ⟨n + 1, nxt, by omega, le_refl _, hnx, het⟩

theorem updateTradeWithCandle_closed (t : Trade) (c : Kline)
    (hc : t.closed_at.isSome = true) :
    updateTradeWithCandle t c = t := by
  have hop : t.is_open = false := by
    rw [Trade.is_open]
    cases h : t.closed_at
    · rw [h] at hc; cases hc
    · rfl
  simp [updateTradeWithCandle, hop]

theorem foldl_update_closed (bs : List Kline) (t : Trade)
    (hc : t.closed_at.isSome = true) :
    bs.foldl updateTradeWithCandle t = t := by
  induction bs with
  | nil => rfl
  | cons c rest ih =>
    rw [List.foldl_cons, updateTradeWithCandle_closed t c hc]
    exact ih

theorem updateTradeWithCandle_hit (t : Trade) (c : Kline) (hopen : t.is_open = true)
    (f1 f2 : Bool) (hflags : tradeHitFlags t c = (f1, f2))
    (hne : ¬(f1 = false ∧ f2 = false)) :
    (updateTradeWithCandle t c).closed_at = some c.close_time
    ∧ (updateTradeWithCandle t c).result = some (if f1 then "SL" else "TP")
    ∧ (updateTradeWithCandle t c).close_price
        = some (if f1 then t.sl_price else t.tp_price) := by
  have hno : ¬(t.is_open = false) := by simp [hopen]
  simp [updateTradeWithCandle, hno, hflags, hne]

theorem update_matches_specScan (tr : Trade) (hopen : tr.closed_at = none)
    (hside : tr.side = "LONG" ∨ tr.side = "SHORT") (bs : List Kline) :
    (match specScanExit tr.side tr.sl_price tr.tp_price bs with
     | some (cb, res, px) =>
        (bs.foldl updateTradeWithCandle tr).closed_at = some cb.close_time
        ∧ (bs.foldl updateTradeWithCandle tr).result = some res
        ∧ (bs.foldl updateTradeWithCandle tr).close_price = some px
     | none => bs.foldl updateTradeWithCandle tr = tr) := by
  have hopenb : tr.is_open = true := by simp [Trade.is_open, hopen]
  induction bs with
  | nil =>
    rcases hside with hL | hS
    · simp [specScanExit, hL]
    · have hne : ¬((tr.side = "LONG") = True) := by simp [hS]
      simp [specScanExit, hS]
  | cons c rest ih =>
    rcases hside with hL | hS
    · by_cases h1 : c.low ≤ tr.sl_price
      · have hflags : tradeHitFlags tr c = (true, false) := by
          simp [tradeHitFlags, hL, h1]
        have h2 := updateTradeWithCandle_hit tr c hopenb true false hflags (by simp)
        have hcl : ((updateTradeWithCandle tr c).closed_at).isSome = true := by
          rw [h2.1]; rfl
        have hspec : specScanExit tr.side tr.sl_price tr.tp_price (c :: rest)
            = some (c, "SL", tr.sl_price) := by
          simp [specScanExit, hL, h1]
        rw [hspec]
        rw [List.foldl_cons, foldl_update_closed rest _ hcl]
        exact ⟨h2.1, by simpa using h2.2.1, by simpa using h2.2.2⟩
      · by_cases h2 : tr.tp_price ≤ c.high
        · have hflags : tradeHitFlags tr c = (false, true) := by
            simp [tradeHitFlags, hL, h1, h2]
          have h3 := updateTradeWithCandle_hit tr c hopenb false true hflags (by simp)
          have hcl : ((updateTradeWithCandle tr c).closed_at).isSome = true := by
            rw [h3.1]; rfl
          have hspec : specScanExit tr.side tr.sl_price tr.tp_price (c :: rest)
              = some (c, "TP", tr.tp_price) := by
            simp [specScanExit, hL, h1, h2]
          rw [hspec]
          rw [List.foldl_cons, foldl_update_closed rest _ hcl]
          exact ⟨h3.1, by simpa using h3.2.1, by simpa using h3.2.2⟩
        · have hflags : tradeHitFlags tr c = (false, false) := by
            simp [tradeHitFlags, hL, h1, h2]
          have hupd : updateTradeWithCandle tr c = tr :=
            updateTradeWithCandle_no_hit tr c hopenb hflags
          have hspec : specScanExit tr.side tr.sl_price tr.tp_price (c :: rest)
              = specScanExit tr.side tr.sl_price tr.tp_price rest := by
            simp [specScanExit, hL, h1, h2]
          rw [hspec, List.foldl_cons, hupd]
          exact ih
    · have hne : tr.side ≠ "LONG" := by rw [hS]; decide
      by_cases h1 : tr.sl_price ≤ c.high
      · have hflags : tradeHitFlags tr c = (true, false) := by
          simp [tradeHitFlags, hne, hS, h1]
        have h2 := updateTradeWithCandle_hit tr c hopenb true false hflags (by simp)
        have hcl : ((updateTradeWithCandle tr c).closed_at).isSome = true := by
          rw [h2.1]; rfl
        have hspec : specScanExit tr.side tr.sl_price tr.tp_price (c :: rest)
            = some (c, "SL", tr.sl_price) := by
          simp [specScanExit, hne, h1]
        rw [hspec]
        rw [List.foldl_cons, foldl_update_closed rest _ hcl]
        exact ⟨h2.1, by simpa using h2.2.1, by simpa using h2.2.2⟩
      · by_cases h2 : c.low ≤ tr.tp_price
        · have hflags : tradeHitFlags tr c = (false, true) := by
            simp [tradeHitFlags, hne, hS, h1, h2]
          have h3 := updateTradeWithCandle_hit tr c hopenb false true hflags (by simp)
          have hcl : ((updateTradeWithCandle tr c).closed_at).isSome = true := by
            rw [h3.1]; rfl
          have hspec : specScanExit tr.side tr.sl_price tr.tp_price (c :: rest)
              = some (c, "TP", tr.tp_price) := by
            simp [specScanExit, hne, h1, h2]
          rw [hspec]
          rw [List.foldl_cons, foldl_update_closed rest _ hcl]
          exact ⟨h3.1, by simpa using h3.2.1, by simpa using h3.2.2⟩
        · have hflags : tradeHitFlags tr c = (false, false) := by
            simp [tradeHitFlags, hne, hS, h1, h2]
          have hupd : updateTradeWithCandle tr c = tr :=
            updateTradeWithCandle_no_hit tr c hopenb hflags
          have hspec : specScanExit tr.side tr.sl_price tr.tp_price (c :: rest)
              = specScanExit tr.side tr.sl_price tr.tp_price rest := by
            simp [specScanExit, hne, h1, h2]
          rw [hspec, List.foldl_cons, hupd]
          exact ih

theorem new_signals_eq (rng : Range4HNY) (cs : List Kline)
    (hinc : ∀ (i j : ℕ) (hi : i < cs.length) (hj : j < cs.length), i < j →
        (cs.get ⟨i, hi⟩).open_time < (cs.get ⟨j, hj⟩).open_time)
    (n : ℕ) (hn : n + 1 < cs.length) (c c' : Kline)
    (hc : cs[n + 1]? = some c) (hc' : cs[n]? = some c') :
    (sigsUpTo rng cs (n + 1)).filter
        (fun sg => decide (sg.entry_time = c.open_time
          ∧ sg.entry_time ∉ entryTimes (sigsUpTo rng cs n)))
      = detectAppend rng cs n c' (coreUpTo rng cs n) := by
  have hold : ∀ σ ∈ sigsUpTo rng cs n, σ.entry_time ≠ c.open_time := by
    intro σ hσ
    obtain ⟨j, b, h1, h2, h3, h4⟩ := sigsUpTo_entry_bound rng cs n σ hσ
    have hj : j < cs.length := by
      by_contra hcon
      rw [List.getElem?_eq_none (by omega)] at h3
      cases h3
    have hb : b = cs.get ⟨j, hj⟩ := by
      rw [List.getElem?_eq_getElem hj] at h3
      exact (Option.some_inj.mp h3).symm
    have hcc : c = cs.get ⟨n + 1, hn⟩ := by
      rw [List.getElem?_eq_getElem hn] at hc
      exact (Option.some_inj.mp hc).symm
    have hlt : b.open_time < c.open_time := by
      rw [hb, hcc]
      exact hinc j (n + 1) hj hn (by omega)
    rw [h4]
    omega
  rw [(sigsUpTo_succ rng cs n c' hc').1, List.filter_append]
  have hfo : (sigsUpTo rng cs n).filter
      (fun sg => decide (sg.entry_time = c.open_time
        ∧ sg.entry_time ∉ entryTimes (sigsUpTo rng cs n))) = [] := by
    rw [List.filter_eq_nil_iff]
    intro σ hσ
    simp only [decide_eq_true_eq]
    rintro ⟨heq, -⟩
    exact hold σ hσ heq
  have hfn : (detectAppend rng cs n c' (coreUpTo rng cs n)).filter
      (fun sg => decide (sg.entry_time = c.open_time
        ∧ sg.entry_time ∉ entryTimes (sigsUpTo rng cs n)))
      = detectAppend rng cs n c' (coreUpTo rng cs n) := by
    rw [List.filter_eq_self]
    intro σ hσ
    obtain ⟨nxt, hnx, het⟩ := detectAppend_entry_time rng cs n c' _ σ hσ
    rw [hc] at hnx
    have hcn : c = nxt := Option.some_inj.mp hnx
    subst hcn
    simp only [decide_eq_true_eq]
    refine ⟨het, ?_⟩
    intro hmem
    obtain ⟨τ, hτ, hτe⟩ := mem_entryTimes.mp hmem
    exact hold τ hτ (by rw [hτe, het])
  rw [hfo, hfn, List.nil_append]

theorem on_new_candle_parity_step (env : MarketEnv) (rng : Range4HNY) (d : ℤ)
    (sym : String) (cs : List Kline) (t : ℕ) (ht : t < cs.length) (c : Kline)
    (hc : cs[t]? = some c) (s : TradingEngine)
    (hcsym : c.symbol = sym)
    (hday : env.nyDate c.open_time = d)
    (hhour : 4 ≤ env.nyHour c.open_time)
    (hinc : ∀ (i j : ℕ) (hi : i < cs.length) (hj : j < cs.length), i < j →
        (cs.get ⟨i, hi⟩).open_time < (cs.get ⟨j, hj⟩).open_time)
    (hinv : EngInv rng d sym cs t s)
    (hfree : (engineUpdateActive s c).active_trade = none) :
    EngInv rng d sym cs (t + 1) (on_new_candle env s c)
    ∧ ((sigsUpTo rng cs t = sigsUpTo rng cs (t - 1)
          ∧ (on_new_candle env s c).active_trade = none)
        ∨ (∃ σ, sigsUpTo rng cs t = sigsUpTo rng cs (t - 1) ++ [σ]
            ∧ (on_new_candle env s c).active_trade
              = some (tradeFromSignal (sigsUpTo rng cs t).length σ))) := by
  obtain ⟨hIsym, hIday, hIrng, hIhist, hIseen, hIcnt⟩ := hinv
  have hF := engineUpdateActive_frame s c
  have hsym' : c.symbol = s.symbol := by rw [hcsym, hIsym]
  have hday' : s.current_range_day = some (env.nyDate c.open_time) := by
    rw [hday, hIday]
  have hrng2 : (engineUpdateActive s c).current_range = some rng := by
    rw [hF.1, hIrng]
  have htk : cs.take (t + 1) = cs.take t ++ [c] := by
    rw [List.take_succ, hc]
    rfl
  have hun := on_new_candle_unfold env s c rng hsym' hday' hhour hrng2
  dsimp only at hun
  rw [hfree] at hun
  simp only [Option.map_none', Option.getD_none, Bool.false_eq_true, if_false] at hun
  rw [hF.2.2.1, hIhist, ← htk, hF.2.2.2.1, hIseen,
    detect_take_eq_sigsUpTo rng cs (t + 1) (by omega) (by omega),
    Nat.add_sub_cancel] at hun
  rcases Nat.eq_zero_or_pos t with rfl | htpos
  · have hz : (sigsUpTo rng cs 0).filter
        (fun sg => decide (sg.entry_time = c.open_time
          ∧ sg.entry_time ∉ entryTimes (sigsUpTo rng cs (0 - 1)))) = [] := rfl
    rw [dif_pos hz] at hun
    refine ⟨⟨?_, ?_, ?_, ?_, ?_, ?_⟩, Or.inl ⟨rfl, ?_⟩⟩
    · rw [hun]
      exact hF.2.2.2.2.1.trans hIsym
    · rw [hun]
      exact hF.2.1.trans hIday
    · rw [hun]
      exact hrng2
    · rw [hun]
    · rw [hun]
    · rw [hun]
      exact hF.2.2.2.2.2.trans hIcnt
    · rw [hun]
  · obtain ⟨n, rfl⟩ : ∃ n, t = n + 1 := ⟨t - 1, by omega⟩
    have hn : n < cs.length := by omega
    obtain ⟨c2, hc2⟩ : ∃ c2, cs[n]? = some c2 :=
      ⟨cs.get ⟨n, hn⟩, List.getElem?_eq_getElem hn⟩
    have hdec := (sigsUpTo_succ rng cs n c2 hc2).1
    have happ := new_signals_eq rng cs hinc n ht c c2 hc hc2
    simp only [Nat.add_sub_cancel] at hun
    rcases detectAppend_cases rng cs n c2 (coreUpTo rng cs n) with hA | ⟨σ, hA⟩
    · rw [hA, List.append_nil] at hdec
      rw [hA] at happ
      rw [dif_pos happ] at hun
      refine ⟨⟨?_, ?_, ?_, ?_, ?_, ?_⟩, Or.inl ⟨by rw [Nat.add_sub_cancel, hdec], ?_⟩⟩
      · rw [hun]
        exact hF.2.2.2.2.1.trans hIsym
      · rw [hun]
        exact hF.2.1.trans hIday
      · rw [hun]
        exact hrng2
      · rw [hun]
      · rw [hun]
        simp only [Nat.add_sub_cancel, hdec]
      · rw [hun]
        simp only [Nat.add_sub_cancel, hdec]
        exact hF.2.2.2.2.2.trans hIcnt
      · rw [hun]
    · rw [hA] at hdec happ
      simp only [happ] at hun
      rw [dif_neg (by simp)] at hun
      simp only [List.getLast_singleton] at hun
      have hIcnt2 : s.trade_counter = (sigsUpTo rng cs n).length := by
        simpa using hIcnt
      have hcnt2 : (engineUpdateActive s c).trade_counter = (sigsUpTo rng cs n).length :=
        hF.2.2.2.2.2.trans hIcnt2
      refine ⟨⟨?_, ?_, ?_, ?_, ?_, ?_⟩,
        Or.inr ⟨σ, by simpa using hdec, ?_⟩⟩
      · rw [hun]
        simp only [openTradeFromSignal]
        exact hF.2.2.2.2.1.trans hIsym
      · rw [hun]
        simp only [openTradeFromSignal]
        exact hF.2.1.trans hIday
      · rw [hun]
        simp only [openTradeFromSignal]
        exact hrng2
      · rw [hun]
        simp only [openTradeFromSignal]
      · rw [hun]
        simp only [openTradeFromSignal, Nat.add_sub_cancel, hdec, entryTimes_append]
        rfl
      · rw [hun]
        simp only [openTradeFromSignal, Nat.add_sub_cancel, hdec, List.length_append,
          List.length_singleton, hcnt2]
      · rw [hun]
        simp only [openTradeFromSignal, tradeFromSignal, Nat.add_sub_cancel, hdec,
          List.length_append, List.length_singleton, hcnt2]

theorem feed_take_succ (env : MarketEnv) (s0 : TradingEngine) (cs : List Kline) (t : ℕ)
    (c : Kline) (hc : cs[t]? = some c) :
    feedCandles env s0 (cs.take (t + 1))
      = on_new_candle env (feedCandles env s0 (cs.take t)) c := by
  unfold feedCandles
  rw [List.take_succ, hc, List.foldl_append]
  rfl

theorem engInv_feed (env : MarketEnv) (rng : Range4HNY) (d : ℤ) (s0 : TradingEngine)
    (cs : List Kline)
    (hsym : ∀ c ∈ cs, c.symbol = s0.symbol)
    (hday0 : s0.current_range_day = some d)
    (hday : ∀ c ∈ cs, env.nyDate c.open_time = d)
    (hhour : ∀ c ∈ cs, 4 ≤ env.nyHour c.open_time)
    (hrng : s0.current_range = some rng)
    (hhist : s0.candles_from_4h = [])
    (hseen : s0.seen_entry_times = ∅)
    (hcnt : s0.trade_counter = 0)
    (hinc : ∀ (i j : ℕ) (hi : i < cs.length) (hj : j < cs.length), i < j →
        (cs.get ⟨i, hi⟩).open_time < (cs.get ⟨j, hj⟩).open_time)
    (hfree : ∀ (t : ℕ) (ht : t < cs.length),
        (engineUpdateActive (feedCandles env s0 (cs.take t)) (cs.get ⟨t, ht⟩)).active_trade
          = none) :
    ∀ t, t ≤ cs.length →
      EngInv rng d s0.symbol cs t (feedCandles env s0 (cs.take t)) := by
  intro t
  induction t with
  | zero =>
    intro _
    have h0 : feedCandles env s0 (cs.take 0) = s0 := rfl
    rw [h0]
    exact ⟨rfl, hday0, hrng, by simp [hhist], by simp [hseen, sigsUpTo_zero, entryTimes],
      by simp [hcnt, sigsUpTo_zero]⟩
  | succ n ih =>
    intro hn1
    have hn : n < cs.length := by omega
    have hc : cs[n]? = some (cs.get ⟨n, hn⟩) := List.getElem?_eq_getElem hn
    have hmem : (cs.get ⟨n, hn⟩) ∈ cs := List.getElem_mem hn
    rw [feed_take_succ env s0 cs n _ hc]
    exact (on_new_candle_parity_step env rng d s0.symbol cs n hn _ hc
      (feedCandles env s0 (cs.take n))
      (hsym _ hmem) (hday _ hmem) (hhour _ hmem) hinc (ih (by omega))
      (hfree n hn)).1

/-- C1 (amended): batch/live parity holds only when no open position blocks
the engine's detection step.  For a one-day bar feed (matching symbol, same
trading day, hour at or past 4, range initialized, fresh per-episode state)
with strictly increasing bar open times, and under the added condition that
whenever a bar arrives any previously opened position has already been
closed by its stop/target update, feeding the bars one at a time yields
exactly the batch result: the final history is the full array, the
consumed-signal set is precisely the entry times of
`detect_entry_signals` over the full array, the trade counter counts
exactly its signals, and bar by bar the engine opens a trade copying the
unique new batch signal (side, entry, stop, target, with sequential id)
whenever one appears and opens nothing otherwise; and a trade's bar-by-bar
outcome rule agrees with the batch scan-forward simulator rule (first
touching bar decides, stop checked before target) on every bar list.
Without the added no-open-position condition parity fails, because
`on_new_candle` returns before signal detection while a trade is open. -/
theorem batch_live_parity_amended (env : MarketEnv) (s0 : TradingEngine)
    (rng : Range4HNY) (d : ℤ) (cs : List Kline)
    (hsym : ∀ c ∈ cs, c.symbol = s0.symbol)
    (hday0 : s0.current_range_day = some d)
    (hday : ∀ c ∈ cs, env.nyDate c.open_time = d)
    (hhour : ∀ c ∈ cs, 4 ≤ env.nyHour c.open_time)
    (hrng : s0.current_range = some rng)
    (hhist : s0.candles_from_4h = [])
    (hseen : s0.seen_entry_times = ∅)
    (hcnt : s0.trade_counter = 0)
    (hinc : ∀ (i j : ℕ) (hi : i < cs.length) (hj : j < cs.length), i < j →
        (cs.get ⟨i, hi⟩).open_time < (cs.get ⟨j, hj⟩).open_time)
    (hfree : ∀ (t : ℕ) (ht : t < cs.length),
        (engineUpdateActive (feedCandles env s0 (cs.take t)) (cs.get ⟨t, ht⟩)).active_trade
          = none) :
    (feedCandles env s0 cs).candles_from_4h = cs
    ∧ (feedCandles env s0 cs).seen_entry_times
        = entryTimes (detect_entry_signals rng cs)
    ∧ (feedCandles env s0 cs).trade_counter = (detect_entry_signals rng cs).length
    ∧ (∀ (t : ℕ), t < cs.length →
        (sigsUpTo rng cs t = sigsUpTo rng cs (t - 1)
          ∧ (feedCandles env s0 (cs.take (t + 1))).active_trade = none)
        ∨ (∃ σ, sigsUpTo rng cs t = sigsUpTo rng cs (t - 1) ++ [σ]
            ∧ (feedCandles env s0 (cs.take (t + 1))).active_trade
              = some (tradeFromSignal (sigsUpTo rng cs t).length σ)))
    ∧ (∀ tr : Trade, tr.closed_at = none → (tr.side = "LONG" ∨ tr.side = "SHORT") →
        ∀ bs : List Kline,
        match specScanExit tr.side tr.sl_price tr.tp_price bs with
        | some (cb, res, px) =>
            (bs.foldl updateTradeWithCandle tr).closed_at = some cb.close_time
            ∧ (bs.foldl updateTradeWithCandle tr).result = some res
            ∧ (bs.foldl updateTradeWithCandle tr).close_price = some px
        | none => bs.foldl updateTradeWithCandle tr = tr) := by
  have hinvT := engInv_feed env rng d s0 cs hsym hday0 hday hhour hrng hhist hseen hcnt
    hinc hfree cs.length (le_refl _)
  rw [List.take_length] at hinvT
  obtain ⟨-, -, -, hTh, hTs, hTc⟩ := hinvT
  rcases eq_or_ne cs [] with rfl | hne
  · refine ⟨by simpa using hhist, ?_, ?_, ?_, ?_⟩
    · show s0.seen_entry_times = entryTimes (detect_entry_signals rng [])
      rw [hseen]
      rfl
    · exact hcnt
    · intro t ht
      simp at ht
    · exact fun tr h1 h2 bs => update_matches_specScan tr h1 h2 bs
  · have hlen : 1 ≤ cs.length := by
      rcases cs with - | ⟨a, l⟩
      · exact absurd rfl hne
      · simp
    have hdet : detect_entry_signals rng cs = sigsUpTo rng cs (cs.length - 1) := by
      have := detect_take_eq_sigsUpTo rng cs cs.length hlen (le_refl _)
      rwa [List.take_length] at this
    refine ⟨by rw [hTh, List.take_length], ?_, ?_, ?_, ?_⟩
    · rw [hTs, hdet]
    · rw [hTc, hdet]
    · intro t ht
      have hc : cs[t]? = some (cs.get ⟨t, ht⟩) := List.getElem?_eq_getElem ht
      have hmem : (cs.get ⟨t, ht⟩) ∈ cs := List.getElem_mem ht
      rw [feed_take_succ env s0 cs t _ hc]
      exact (on_new_candle_parity_step env rng d s0.symbol cs t ht _ hc
        (feedCandles env s0 (cs.take t))
        (hsym _ hmem) (hday _ hmem) (hhour _ hmem) hinc
        (engInv_feed env rng d s0 cs hsym hday0 hday hhour hrng hhist hseen hcnt
          hinc hfree t (by omega))
        (hfree t ht)).2
    · exact fun tr h1 h2 bs => update_matches_specScan tr h1 h2 bs

theorem batch_live_parity_amended_witness :
    (feedCandles stdEnv c1Start [cxb0, cxb1, cxb2]).candles_from_4h = [cxb0, cxb1, cxb2]
    ∧ (feedCandles stdEnv c1Start [cxb0, cxb1, cxb2]).seen_entry_times
        = entryTimes (detect_entry_signals testRange [cxb0, cxb1, cxb2])
    ∧ (feedCandles stdEnv c1Start [cxb0, cxb1, cxb2]).trade_counter
        = (detect_entry_signals testRange [cxb0, cxb1, cxb2]).length
    ∧ (feedCandles stdEnv c1Start [cxb0, cxb1, cxb2]).seen_entry_times = {2}
    ∧ (feedCandles stdEnv c1Start [cxb0, cxb1, cxb2]).trade_counter = 1 := by
  have h := batch_live_parity_amended stdEnv c1Start testRange 0 [cxb0, cxb1, cxb2]
    (by intro c hc; fin_cases hc <;> rfl)
    rfl
    (by intro c hc; rfl)
    (by intro c hc; norm_num [stdEnv])
    rfl
    rfl
    rfl
    rfl
    (by intro i j hi hj hij
        simp only [List.length_cons, List.length_nil] at hi hj
        interval_cases i <;> interval_cases j <;>
          first | omega | norm_num [cxb0, cxb1, cxb2, mkBar])
    (by intro t ht
        simp only [List.length_cons, List.length_nil] at ht
        interval_cases t
        · rfl
        · show (engineUpdateActive (on_new_candle stdEnv c1Start cxb0)
              cxb1).active_trade = none
          rw [cxstep1]
          rfl
        · show (engineUpdateActive (on_new_candle stdEnv
              (on_new_candle stdEnv c1Start cxb0) cxb1) cxb2).active_trade = none
          rw [cxstep1, cxstep2]
          rfl)
  refine ⟨h.1, h.2.1, h.2.2.1, ?_, ?_⟩
  · rw [h.2.1, cxdet3]
    rfl
  · rw [h.2.2.1, cxdet3]
    rfl

